import Mathlib

/-!
Verification development for the knowledge-extraction core of the
`basic-mcp-server` repository.  The Python modules under
`src/mcp_server/services/knowledge_extraction/` are shallowly embedded as
executable Lean definitions:

* `call_graph_analyzer.py` — the `CallGraphAnalyzer` class: graphs are
  modelled as insertion-ordered association lists mirroring the semantics of
  `networkx.DiGraph` (node insertion updates the attribute dictionary of an
  existing node; edge insertion keyed by the ordered pair, updating the data
  dictionary of an existing edge; missing endpoints are added).
* `pattern_extractor.py` — the `PatternExtractor` class: the regex-driven
  per-file signal scan is carried as observation lists inside the input
  record, while the call-graph analysis, folder-structure analysis, and the
  deduplication/confidence-promotion pass are embedded in full.
* `code_chunker.py` — the `CodeChunker` class: the generic line-based
  chunker is embedded in full; `str.split`, `'\n'.join` and `len` are
  modelled by `splitLines`, `joinLines` and `String.length`.

Python dictionaries are modelled as insertion-ordered association lists,
Python file reads and `ast.parse` as explicit `Except`/`Option`-valued
inputs, and Python exceptions as `Except` results.
-/

set_option autoImplicit false

set_option maxRecDepth 4000

set_option linter.unusedVariables false

/-- Python `pat in s` on strings: contiguous substring test on character
lists. -/
def infixOfB (pat : List Char) : List Char → Bool
  | [] => pat.isEmpty
  | l@(_ :: t) => pat.isPrefixOf l || infixOfB pat t

/-- `pat in hay` for Python strings. -/
def strContains (hay pat : String) : Bool := infixOfB pat.data hay.data

/-- Python `s.lower()` (ASCII case folding, character-wise). -/
def strToLower (s : String) : String := String.mk (s.data.map Char.toLower)

/-- Python `s.startswith(pre)`. -/
def strStartsWith (s pre : String) : Bool := pre.data.isPrefixOf s.data

/-- Python `s.strip()` (whitespace removal at both ends). -/
def strStrip (s : String) : String :=
  String.mk (((s.data.dropWhile Char.isWhitespace).reverse.dropWhile Char.isWhitespace).reverse)

/-- Insert `x` into a sorted list, after every element it does not strictly
precede — the insertion step of a stable ascending sort. -/
def insertSorted {α : Type} (le : α → α → Bool) (x : α) : List α → List α
  | [] => [x]
  | y :: ys => if le x y then x :: y :: ys else y :: insertSorted le x ys

/-- A stable ascending sort by the boolean preorder `le` (ties keep their
original relative order) — the observable behavior of Python's stable
`sorted`/`list.sort`. -/
def stableSort {α : Type} (le : α → α → Bool) : List α → List α
  | [] => []
  | x :: xs => insertSorted le x (stableSort le xs)

/-- Python string truthiness: the empty string is falsy. -/
def strTruthy (s : String) : Bool := !(s == "")

/-- Python truthiness of an optional string (`None` and `""` are falsy). -/
def optTruthy : Option String → Bool
  | some s => strTruthy s
  | none => false

/-- `content.split(c)` for a single-character separator: split a character
list at every occurrence of `c`, keeping empty segments. -/
def splitCharsOn (c : Char) : List Char → List (List Char)
  | [] => [[]]
  | x :: xs =>
    if x = c then [] :: splitCharsOn c xs
    else
      match splitCharsOn c xs with
      | [] => [[x]]
      | p :: ps => (x :: p) :: ps

/-- Python `s.split('\n')`. -/
def splitLines (s : String) : List String :=
  (splitCharsOn '\n' s.data).map String.mk

/-- Python `'\n'.join(lines)`. -/
def joinLines : List String → String
  | [] => ""
  | [l] => l
  | l :: ls => l ++ "\n" ++ joinLines ls

/-- Python `s.split('.')`, used for qualified-name suffix extraction. -/
def splitDots (s : String) : List String :=
  (splitCharsOn '.' s.data).map String.mk

/-- `s.split('/')`, used by `basename`. -/
def splitSlashes (s : String) : List String :=
  (splitCharsOn '/' s.data).map String.mk

/-- `os.path.basename` for POSIX-style paths. -/
def basename (s : String) : String := (splitSlashes s).getLastD s

/-- `os.path.join` for two POSIX path segments. -/
def joinPath (a b : String) : String := a ++ "/" ++ b

namespace CallGraphAnalyzer

/-- An attribute value stored in a node or edge attribute dictionary
(`networkx` keyword arguments): the analyzer stores strings and booleans. -/
inductive AVal where
  | s (v : String)
  | b (v : Bool)
deriving DecidableEq

/-- A Python attribute dictionary, as an insertion-ordered association
list. -/
abbrev Attrs := List (String × AVal)

/-- `d[k] = v` preserving insertion order (updating in place when the key is
present, appending otherwise). -/
def dictSet (d : Attrs) (k : String) (v : AVal) : Attrs :=
  if d.any (fun p => p.1 == k) then
    d.map (fun p => if p.1 == k then (k, v) else p)
  else d ++ [(k, v)]

/-- `d.update(upd)` for Python dictionaries. -/
def dictUpdate (d upd : Attrs) : Attrs :=
  upd.foldl (fun acc p => dictSet acc p.1 p.2) d

/-- `d.get(k)` (returns `None` when missing). -/
def dictGet (d : Attrs) (k : String) : Option AVal :=
  (d.find? (fun p => p.1 == k)).map (fun p => p.2)

/-- `d.get(k, default)` for string-valued attributes. -/
def dictGetS (d : Attrs) (k : String) (dflt : String) : String :=
  match dictGet d k with
  | some (.s v) => v
  | _ => dflt

/-- The state of a `networkx.DiGraph`: insertion-ordered nodes with
attribute dictionaries, and insertion-ordered edges keyed by the ordered
pair of endpoints (a `DiGraph` stores at most one edge per ordered pair). -/
structure Graph where
  nodes : List (String × Attrs)
  edges : List (String × String × Attrs)
deriving DecidableEq

/-- `nx.DiGraph()` / `graph.clear()`. -/
def Graph.empty : Graph := ⟨[], []⟩

/-- `graph.has_node(n)` (also Python `n in graph`). -/
def Graph.has_node (g : Graph) (n : String) : Bool :=
  g.nodes.any (fun p => p.1 == n)

/-- `graph.add_node(n, **attrs)`: updates the attribute dictionary of an
existing node, otherwise appends a fresh node. -/
def Graph.add_node (g : Graph) (n : String) (attrs : Attrs) : Graph :=
  if g.has_node n then
    { g with nodes := g.nodes.map (fun p => if p.1 == n then (p.1, dictUpdate p.2 attrs) else p) }
  else
    { g with nodes := g.nodes ++ [(n, attrs)] }

/-- `graph.add_edge(u, v, **attrs)`: missing endpoints are inserted with
empty attribute dictionaries; an existing `(u, v)` edge has its data
dictionary updated, otherwise the edge is appended. -/
def Graph.add_edge (g : Graph) (u v : String) (attrs : Attrs) : Graph :=
  let g := if g.has_node u then g else { g with nodes := g.nodes ++ [(u, [])] }
  let g := if g.has_node v then g else { g with nodes := g.nodes ++ [(v, [])] }
  if g.edges.any (fun e => e.1 == u && e.2.1 == v) then
    { g with edges := g.edges.map (fun e => if e.1 == u && e.2.1 == v then (e.1, e.2.1, dictUpdate e.2.2 attrs) else e) }
  else
    { g with edges := g.edges ++ [(u, v, attrs)] }

/-- `graph.degree(n)` in a `DiGraph`: in-degree plus out-degree. -/
def Graph.degree (g : Graph) (n : String) : Nat :=
  (g.edges.filter (fun e => e.1 == n)).length +
    (g.edges.filter (fun e => e.2.1 == n)).length

/-- `graph.edges(data=True)` iteration order: sources in node insertion
order, then the adjacency of each source in edge insertion order. -/
def Graph.edgesInOrder (g : Graph) : List (String × String × Attrs) :=
  (g.nodes.map (fun p => g.edges.filter (fun e => e.1 == p.1))).flatten

/-- The attribute dictionary stored on node `n`, if present. -/
def Graph.nodeAttrs (g : Graph) (n : String) : Option Attrs :=
  (g.nodes.find? (fun p => p.1 == n)).map (fun p => p.2)

/-- A method entry of a `file_info` dictionary (as produced by
`CodeExtractor`): the analyzer reads `name` and `is_async`. -/
structure MethodInfo where
  name : String
  is_async : Bool := false
deriving DecidableEq

/-- A class entry of a `file_info` dictionary.  `inheritance` is the C#
extractor's base list and `bases` the Python extractor's; the TypeScript
role flags are carried as booleans. -/
structure ClassInfo where
  name : String
  methods : List MethodInfo := []
  inheritance : List String := []
  bases : List String := []
  is_component : Bool := false
  is_service : Bool := false
  is_module : Bool := false
deriving DecidableEq

/-- An interface entry of a `file_info` dictionary. -/
structure InterfaceInfo where
  name : String
deriving DecidableEq

/-- A top-level function entry of a `file_info` dictionary. -/
structure FuncInfo where
  name : String
  is_async : Bool := false
deriving DecidableEq

/-- An entry of `file_info["imports"]`: TypeScript entries carry `source`
and `imported_items`, Python entries carry `module`. -/
structure ImportInfo where
  source : String := ""
  imported_items : List String := []
  module : Option String := none
deriving DecidableEq

/-- An entry of `file_info["di_registrations"]`. -/
structure DiReg where
  service_type : Option String := none
  implementation_type : Option String := none
  lifetime : String := "unknown"
deriving DecidableEq

/-- A `file_info` dictionary handed to `CallGraphAnalyzer`
(the output of `CodeExtractor.extract_knowledge_from_file`). -/
structure FileInfo where
  file_path : String := ""
  code_language : String := "unknown"
  namespace_ : String := "Unknown"
  classes : List ClassInfo := []
  interfaces : List InterfaceInfo := []
  functions : List FuncInfo := []
  imports_ : List ImportInfo := []
  di_registrations : List DiReg := []
  is_angular : Bool := false
deriving DecidableEq

/-- `CallGraphAnalyzer._analyze_csharp_file`: class nodes keyed
`namespace.Class`, method nodes keyed `namespace.Class.Method` with
`contains` edges, interface nodes, and `di_registration` edges.  The class
entry's base list is never read. -/
def analyze_csharp_file (file_info : FileInfo) (g0 : Graph) : Graph :=
  let file_path := file_info.file_path
  let ns := file_info.namespace_
  let g := file_info.classes.foldl (fun g cls =>
    let class_node := ns ++ "." ++ cls.name
    let g := g.add_node class_node
      [("type", .s "class"), ("language", .s "csharp"),
       ("file_path", .s file_path), ("namespace", .s ns)]
    cls.methods.foldl (fun g method =>
      let method_node := class_node ++ "." ++ method.name
      let g := g.add_node method_node
        [("type", .s "method"), ("language", .s "csharp"),
         ("file_path", .s file_path), ("class_name", .s cls.name),
         ("namespace", .s ns)]
      g.add_edge class_node method_node [("type", .s "contains")]) g) g0
  let g := file_info.interfaces.foldl (fun g itf =>
    let interface_node := ns ++ "." ++ itf.name
    g.add_node interface_node
      [("type", .s "interface"), ("language", .s "csharp"),
       ("file_path", .s file_path), ("namespace", .s ns)]) g
  file_info.di_registrations.foldl (fun g di =>
    if optTruthy di.service_type && optTruthy di.implementation_type then
      let service_type := di.service_type.getD ""
      let implementation_type := di.implementation_type.getD ""
      let g := if g.has_node service_type then g else
        g.add_node service_type
          [("type", .s "interface"), ("language", .s "csharp"),
           ("file_path", .s file_path)]
      let g := if g.has_node implementation_type then g else
        g.add_node implementation_type
          [("type", .s "class"), ("language", .s "csharp"),
           ("file_path", .s file_path)]
      g.add_edge service_type implementation_type
        [("type", .s "di_registration"), ("lifetime", .s di.lifetime)]
    else g) g

/-- `CallGraphAnalyzer._analyze_typescript_file`: class nodes keyed by bare
class name (typed by the Angular role flags), method nodes with `contains`
edges, and `imports` edges to imported items (skipping `@angular/`
sources). -/
def analyze_typescript_file (file_info : FileInfo) (g0 : Graph) : Graph :=
  let file_path := file_info.file_path
  let is_angular := file_info.is_angular
  let g := file_info.classes.foldl (fun g cls =>
    let node_type :=
      if cls.is_component then "component"
      else if cls.is_service then "service"
      else if cls.is_module then "module"
      else "class"
    let g := g.add_node cls.name
      [("type", .s node_type), ("language", .s "typescript"),
       ("file_path", .s file_path), ("is_angular", .b is_angular)]
    cls.methods.foldl (fun g method =>
      let method_node := cls.name ++ "." ++ method.name
      let g := g.add_node method_node
        [("type", .s "method"), ("language", .s "typescript"),
         ("file_path", .s file_path), ("class_name", .s cls.name)]
      g.add_edge cls.name method_node [("type", .s "contains")]) g) g0
  file_info.imports_.foldl (fun g imp =>
    imp.imported_items.foldl (fun g item =>
      if strStartsWith imp.source "@angular/" then g
      else
        let g := if g.has_node item then g else
          g.add_node item
            [("type", .s "import"), ("language", .s "typescript"),
             ("file_path", .s "unknown")]
        file_info.classes.foldl (fun g cls =>
          g.add_edge cls.name item
            [("type", .s "imports"), ("source", .s imp.source)]) g) g) g

/-- `CallGraphAnalyzer._analyze_javascript_file`: delegates to the
TypeScript analyzer. -/
def analyze_javascript_file (file_info : FileInfo) (g : Graph) : Graph :=
  analyze_typescript_file file_info g

/-- `CallGraphAnalyzer._analyze_python_file`: class nodes with `inherits`
edges to (possibly placeholder) base nodes, method nodes with `contains`
edges, top-level function nodes, and `imports` edges from every class and
function to each imported module. -/
def analyze_python_file (file_info : FileInfo) (g0 : Graph) : Graph :=
  let file_path := file_info.file_path
  let g := file_info.classes.foldl (fun g cls =>
    let g := g.add_node cls.name
      [("type", .s "class"), ("language", .s "python"),
       ("file_path", .s file_path)]
    let g := cls.bases.foldl (fun g base =>
      let g := if g.has_node base then g else
        g.add_node base
          [("type", .s "class"), ("language", .s "python"),
           ("file_path", .s "unknown")]
      g.add_edge cls.name base [("type", .s "inherits")]) g
    cls.methods.foldl (fun g method =>
      let method_node := cls.name ++ "." ++ method.name
      let g := g.add_node method_node
        [("type", .s "method"), ("language", .s "python"),
         ("file_path", .s file_path), ("class_name", .s cls.name),
         ("is_async", .b method.is_async)]
      g.add_edge cls.name method_node [("type", .s "contains")]) g) g0
  let g := file_info.functions.foldl (fun g func =>
    g.add_node func.name
      [("type", .s "function"), ("language", .s "python"),
       ("file_path", .s file_path), ("is_async", .b func.is_async)]) g
  file_info.imports_.foldl (fun g imp =>
    match imp.module with
    | none => g
    | some module =>
      if strTruthy module then
        let g := if g.has_node module then g else
          g.add_node module
            [("type", .s "module"), ("language", .s "python"),
             ("file_path", .s "unknown")]
        let g := file_info.classes.foldl (fun g cls =>
          g.add_edge cls.name module [("type", .s "imports")]) g
        file_info.functions.foldl (fun g func =>
          g.add_edge func.name module [("type", .s "imports")]) g
      else g) g

/-- The analyzer's interface to the file system and to
`re.search(f"class\\s+{c}\\s*:\\s*.*{i}", content)`: `readFile` returns
`none` when opening or reading the file raises (the analyzer logs a warning
and skips), and `implementsSearch content c i` is the regex test. -/
structure CGEnv where
  readFile : String → Option String
  implementsSearch : String → String → String → Bool

/-- `node_id.split(".")[-1]` (the node id itself when it has no dot). -/
def bareName (node_id : String) : String := (splitDots node_id).getLastD node_id

/-- Append `v` to the bucket of `k` in a Python dict of lists, creating the
bucket on first occurrence. -/
def groupInsert (m : List (String × List String)) (k v : String) :
    List (String × List String) :=
  if m.any (fun p => p.1 == k) then
    m.map (fun p => if p.1 == k then (p.1, p.2 ++ [v]) else p)
  else m ++ [(k, [v])]

/-- `CallGraphAnalyzer._build_cross_file_relationships`: group class and
interface nodes by bare name, and for class/interface pairs sharing a
(nonempty) namespace, re-scan the class's source file for a textually
matching `class C : ... I` declaration and add an `implements` edge.  The
`files` parameter of the Python method is unused by its body and omitted
here. -/
def build_cross_file_relationships (env : CGEnv) (g0 : Graph) : Graph :=
  let class_map := g0.nodes.foldl (fun m p =>
    if dictGet p.2 "type" == some (.s "class") then groupInsert m (bareName p.1) p.1 else m)
    ([] : List (String × List String))
  let interface_map := g0.nodes.foldl (fun m p =>
    if dictGet p.2 "type" == some (.s "interface") then groupInsert m (bareName p.1) p.1 else m)
    ([] : List (String × List String))
  class_map.foldl (fun g cm =>
    interface_map.foldl (fun g im =>
      cm.2.foldl (fun g class_node =>
        let class_data := (g.nodeAttrs class_node).getD []
        im.2.foldl (fun g interface_node =>
          let interface_data := (g.nodeAttrs interface_node).getD []
          let ns_c := dictGet class_data "namespace"
          let ns_i := dictGet interface_data "namespace"
          if (match ns_c, ns_i with
              | some (.s a), some (.s b) => strTruthy a && strTruthy b && a == b
              | _, _ => false) then
            if g.has_node class_node && g.has_node interface_node then
              let file_path := dictGetS class_data "file_path" ""
              if strTruthy file_path then
                match env.readFile file_path with
                | none => g
                | some content =>
                  if env.implementsSearch content cm.1 im.1 then
                    g.add_edge class_node interface_node [("type", .s "implements")]
                  else g
              else g
            else g
          else g) g) g) g) g0

/-- Increment the counter of `k` in a Python dict of counters, creating it
at first occurrence. -/
def countInsert (m : List (String × Nat)) (k : String) : List (String × Nat) :=
  if m.any (fun p => p.1 == k) then
    m.map (fun p => if p.1 == k then (p.1, p.2 + 1) else p)
  else m ++ [(k, 1)]

/-- A node record of the analysis results and of the graph export
(`{"id", "type", "code_language", "file_path"}`; the results variant also
carries `degree`). -/
structure NodeRec where
  id : String
  type : String
  code_language : String
  file_path : String
  degree : Nat := 0
deriving DecidableEq

/-- An edge record (`{"source", "target", "type"}`). -/
structure EdgeRec where
  source : String
  target : String
  type : String
deriving DecidableEq

/-- An architectural-pattern entry produced by
`_identify_architectural_patterns`. -/
structure PatternRec where
  name : String
  confidence : String
  components : List (String × Nat)
deriving DecidableEq

/-- The node record emitted into `results["nodes"]`: note that the source
reads the `code_language` attribute, which no analyzer pass ever stores
(they store `language`), so the field is always `"unknown"`. -/
def nodeRecOf (g : Graph) (p : String × Attrs) : NodeRec :=
  { id := p.1
    type := dictGetS p.2 "type" "unknown"
    code_language := dictGetS p.2 "code_language" "unknown"
    file_path := dictGetS p.2 "file_path" "unknown"
    degree := g.degree p.1 }

/-- The edge record emitted into `results["edges"]` and
`export["links"]`. -/
def edgeRecOf (e : String × String × Attrs) : EdgeRec :=
  { source := e.1, target := e.2.1, type := dictGetS e.2.2 "type" "unknown" }

/-- The elif-chain of `_identify_architectural_patterns` classifying a node
into the `controllers`/`models`/`views` family (at most one family per
node). -/
def mvcFamily (p : String × Attrs) : Option String :=
  let node_name := strToLower p.1
  let class_name := strToLower (dictGetS p.2 "class_name" "")
  let file_path := strToLower (dictGetS p.2 "file_path" "")
  if strContains node_name "controller" || strContains class_name "controller" ||
      strContains file_path "controllers" then some "controllers"
  else if strContains node_name "model" || strContains class_name "model" ||
      strContains file_path "models" then some "models"
  else if strContains node_name "view" || strContains class_name "view" ||
      strContains file_path "views" then some "views"
  else none

/-- Number of graph nodes classified as controllers. -/
def mvcControllers (g : Graph) : Nat :=
  (g.nodes.filter (fun p => mvcFamily p == some "controllers")).length

/-- Number of graph nodes classified as models. -/
def mvcModels (g : Graph) : Nat :=
  (g.nodes.filter (fun p => mvcFamily p == some "models")).length

/-- Number of graph nodes classified as views. -/
def mvcViews (g : Graph) : Nat :=
  (g.nodes.filter (fun p => mvcFamily p == some "views")).length

/-- Number of `di_registration` edges of the graph. -/
def diEdgeCount (g : Graph) : Nat :=
  (g.edges.filter (fun e => dictGet e.2.2 "type" == some (.s "di_registration"))).length

/-- The MVC entry of `_identify_architectural_patterns`: present when all
three families are populated, `high` when the smallest family count exceeds
2. -/
def mvcPattern (g : Graph) : List PatternRec :=
  if 0 < mvcControllers g ∧ 0 < mvcModels g ∧ 0 < mvcViews g then
    [{ name := "MVC (Model-View-Controller)"
       confidence :=
         if 2 < Nat.min (mvcControllers g) (Nat.min (mvcModels g) (mvcViews g))
         then "high" else "medium"
       components := [("controllers", mvcControllers g), ("models", mvcModels g),
                      ("views", mvcViews g)] }]
  else []

/-- Number of graph nodes whose id contains `repository`. -/
def repositoryCount (g : Graph) : Nat :=
  (g.nodes.filter (fun p => strContains (strToLower p.1) "repository")).length

/-- The Repository entry of `_identify_architectural_patterns`. -/
def repositoryPattern (g : Graph) : List PatternRec :=
  if 0 < repositoryCount g then
    [{ name := "Repository Pattern"
       confidence := if 2 < repositoryCount g then "high" else "medium"
       components := [("repositories", repositoryCount g)] }]
  else []

/-- Number of graph nodes whose id contains `service`. -/
def serviceCount (g : Graph) : Nat :=
  (g.nodes.filter (fun p => strContains (strToLower p.1) "service")).length

/-- The Service entry of `_identify_architectural_patterns`. -/
def servicePattern (g : Graph) : List PatternRec :=
  if 0 < serviceCount g then
    [{ name := "Service Pattern"
       confidence := if 2 < serviceCount g then "high" else "medium"
       components := [("services", serviceCount g)] }]
  else []

/-- Number of graph nodes whose id contains `factory`. -/
def factoryCount (g : Graph) : Nat :=
  (g.nodes.filter (fun p => strContains (strToLower p.1) "factory")).length

/-- The Factory entry of `_identify_architectural_patterns` (always
`medium`). -/
def factoryPattern (g : Graph) : List PatternRec :=
  if 0 < factoryCount g then
    [{ name := "Factory Pattern", confidence := "medium"
       components := [("factories", factoryCount g)] }]
  else []

/-- The Dependency Injection entry of `_identify_architectural_patterns`:
emitted with `high` confidence whenever a `di_registration` edge exists. -/
def diPattern (g : Graph) : List PatternRec :=
  if 0 < diEdgeCount g then
    [{ name := "Dependency Injection", confidence := "high"
       components := [("di_registrations", diEdgeCount g)] }]
  else []

/-- `CallGraphAnalyzer._identify_architectural_patterns`: the pattern list
appends the MVC, Repository, Service, Factory and Dependency Injection
entries in source order. -/
def identify_architectural_patterns (g : Graph) : List PatternRec :=
  mvcPattern g ++ repositoryPattern g ++ servicePattern g ++ factoryPattern g ++ diPattern g

/-- The analysis results returned by `analyze_codebase`. -/
structure Results where
  node_count : Nat
  edge_count : Nat
  node_types : List (String × Nat)
  edge_types : List (String × Nat)
  central_components : List (String × Nat)
  patterns : List PatternRec
  nodes : List NodeRec
  edges : List EdgeRec
deriving DecidableEq

/-- `CallGraphAnalyzer._generate_analysis_results`.  Degree centrality is
`degree / (n - 1)`; since the denominator is constant over a graph, the
stable descending sort by centrality score coincides with the stable
descending sort by degree recorded here. -/
def generate_analysis_results (g : Graph) : Results :=
  let node_types := g.nodes.foldl (fun m p => countInsert m (dictGetS p.2 "type" "unknown")) []
  let edge_types := g.edgesInOrder.foldl (fun m e => countInsert m (dictGetS e.2.2 "type" "unknown")) []
  let central := (stableSort (fun (a b : String × Nat) => b.2 ≤ a.2)
    (g.nodes.map (fun p => (p.1, g.degree p.1)))).take 10
  { node_count := g.nodes.length
    edge_count := g.edges.length
    node_types := node_types
    edge_types := edge_types
    central_components := central
    patterns := identify_architectural_patterns g
    nodes := g.nodes.map (nodeRecOf g)
    edges := g.edgesInOrder.map edgeRecOf }

/-- The serializable view produced by `export_graph_to_json`
(`{"nodes": [...], "links": [...]}`); the file write is a side effect
outside the projection and is omitted. -/
structure ExportData where
  nodes : List NodeRec
  links : List EdgeRec
deriving DecidableEq

/-- `CallGraphAnalyzer.export_graph_to_json`: one record per node (reading
the never-stored `code_language` attribute, like the results view) and one
record per edge. -/
def export_graph_to_json (g : Graph) : ExportData :=
  { nodes := g.nodes.map (fun p =>
      { id := p.1
        type := dictGetS p.2 "type" "unknown"
        code_language := dictGetS p.2 "code_language" "unknown"
        file_path := dictGetS p.2 "file_path" "unknown" })
    links := g.edgesInOrder.map edgeRecOf }

/-- The mutable state of a `CallGraphAnalyzer` instance. -/
structure CGState where
  call_graph : Graph := Graph.empty
  data_flow_graph : Graph := Graph.empty
deriving DecidableEq

/-- The arguments of one `analyze_codebase` call, together with the file
system environment consumed by the cross-file pass. -/
structure CGInput where
  repo_path : String := ""
  files : List FileInfo := []
  language : Option String := none
  exclude_patterns : List String := []
  env : CGEnv

/-- The per-file language dispatch of `analyze_codebase` (unlisted
languages are skipped). -/
def analyzeFileDispatch (file_info : FileInfo) (g : Graph) : Graph :=
  let lang := strToLower file_info.code_language
  if lang == "csharp" || lang == "cs" || lang == "c#" then
    analyze_csharp_file file_info g
  else if lang == "typescript" || lang == "ts" then
    analyze_typescript_file file_info g
  else if lang == "javascript" || lang == "js" then
    analyze_javascript_file file_info g
  else if lang == "python" || lang == "py" then
    analyze_python_file file_info g
  else g

/-- `CallGraphAnalyzer.analyze_codebase`: clears both graphs, filters the
file list, analyzes each file, resolves cross-file relationships, and
returns the generated results together with the new instance state. -/
def analyze_codebase (self : CGState) (inp : CGInput) : CGState × Results :=
  let files : List FileInfo := match inp.language with
    | some lang => inp.files.filter (fun f => strToLower f.code_language == strToLower lang)
    | none => inp.files
  let files := inp.exclude_patterns.foldl
    (fun (fs : List FileInfo) pat => fs.filter (fun f => !(strContains f.file_path pat))) files
  let g := files.foldl (fun g f => analyzeFileDispatch f g) Graph.empty
  let g := build_cross_file_relationships inp.env g
  ({ call_graph := g, data_flow_graph := Graph.empty }, generate_analysis_results g)

end CallGraphAnalyzer

namespace PatternExtractor

open CallGraphAnalyzer in
/-- A raw pattern observation as appended by `_add_design_pattern`,
`_add_architectural_pattern`, `_add_code_organization` and
`_add_language_specific_pattern`. -/
structure RawObs where
  name : String
  confidence : String
  source : String
deriving DecidableEq

/-- The `patterns_found` dictionary of a `PatternExtractor` instance. -/
structure PFState where
  design_patterns : List RawObs := []
  architectural_patterns : List RawObs := []
  code_organization : List RawObs := []
  language_specific : List (String × List RawObs) := []
deriving DecidableEq

/-- The `patterns_found` value set at the start of `extract_patterns`. -/
def resetState : PFState := {}

/-- `PatternExtractor._add_design_pattern`. -/
def add_design_pattern (s : PFState) (name confidence source : String) : PFState :=
  { s with design_patterns := s.design_patterns ++ [⟨name, confidence, source⟩] }

/-- `PatternExtractor._add_architectural_pattern`. -/
def add_architectural_pattern (s : PFState) (name confidence source : String) : PFState :=
  { s with architectural_patterns := s.architectural_patterns ++ [⟨name, confidence, source⟩] }

/-- `PatternExtractor._add_code_organization`. -/
def add_code_organization (s : PFState) (name confidence source : String) : PFState :=
  { s with code_organization := s.code_organization ++ [⟨name, confidence, source⟩] }

/-- Create the bucket of a language in `patterns_found["language_specific"]`
if it does not exist yet. -/
def ensureBucket (s : PFState) (language : String) : PFState :=
  if s.language_specific.any (fun p => p.1 == language) then s
  else { s with language_specific := s.language_specific ++ [(language, [])] }

/-- `PatternExtractor._add_language_specific_pattern`. -/
def add_language_specific_pattern (s : PFState) (language name confidence source : String) :
    PFState :=
  let s := ensureBucket s language
  { s with language_specific := (s.language_specific.map
      (fun p => if p.1 == language then (p.1, p.2 ++ [⟨name, confidence, source⟩]) else p)) }

/-- The observations contributed by one file of the per-file scan
(`_extract_csharp_patterns` / `_extract_typescript_patterns` /
`_extract_python_patterns`): the regex matching over the file content is a
pure function of the content and is carried here as its resulting
observation lists, per target category; `read_ok = false` models the
early return when reading the file raises (before any bucket is
created). -/
structure FileSig where
  code_language : String := "unknown"
  file_path : String := ""
  read_ok : Bool := true
  designObs : List RawObs := []
  archObs : List RawObs := []
  langObs : List RawObs := []
deriving DecidableEq

/-- The per-file dispatch of `extract_patterns` (lines 58–67): the C#
branch fills the `csharp` bucket, the TypeScript/JavaScript branch the
`typescript` bucket, the Python branch the `python` bucket; other languages
are skipped. -/
def applyFileSig (s : PFState) (f : FileSig) : PFState :=
  let lang := strToLower f.code_language
  let apply (bucket : String) (s : PFState) : PFState :=
    if f.read_ok then
      let s := ensureBucket s bucket
      let s := { s with design_patterns := s.design_patterns ++ f.designObs }
      let s := { s with architectural_patterns := s.architectural_patterns ++ f.archObs }
      { s with language_specific := (s.language_specific.map
          (fun p => if p.1 == bucket then (p.1, p.2 ++ f.langObs) else p)) }
    else s
  if lang == "csharp" || lang == "cs" || lang == "c#" then apply "csharp" s
  else if lang == "typescript" || lang == "ts" || lang == "javascript" || lang == "js" then
    apply "typescript" s
  else if lang == "python" || lang == "py" then apply "python" s
  else s

open CallGraphAnalyzer (Results NodeRec PatternRec) in
/-- The elif-chain applied to one call-graph pattern entry inside
`_analyze_call_graph_patterns`. -/
def applyCGPattern (s : PFState) (p : PatternRec) : PFState :=
  let confidence := p.confidence
  if strContains p.name "MVC" then
    add_architectural_pattern s "MVC" confidence "call_graph_analysis"
  else if strContains p.name "Repository" then
    add_design_pattern s "Repository Pattern" confidence "call_graph_analysis"
  else if strContains p.name "Service" then
    add_design_pattern s "Service Pattern" confidence "call_graph_analysis"
  else if strContains p.name "Factory" then
    add_design_pattern s "Factory Pattern" confidence "call_graph_analysis"
  else if strContains p.name "Dependency Injection" then
    add_design_pattern s "Dependency Injection" confidence "call_graph_analysis"
  else s

open CallGraphAnalyzer (Results NodeRec) in
/-- `PatternExtractor._analyze_call_graph_patterns`: re-file the call-graph
pattern entries, then scan the node list for layered and hexagonal/clean
architecture signals. -/
def analyze_call_graph_patterns (results : Results) (s : PFState) : PFState :=
  let s := results.patterns.foldl applyCGPattern s
  let nodes := results.nodes
  let controllers := (nodes.filter (fun n => strContains (strToLower n.id) "controller")).length
  let services := (nodes.filter (fun n => strContains (strToLower n.id) "service")).length
  let repositories := (nodes.filter (fun n =>
    strContains (strToLower n.id) "repository" || strContains (strToLower n.id) "dao")).length
  let models := (nodes.filter (fun n =>
    strContains (strToLower n.id) "model" || strContains (strToLower n.id) "entity")).length
  let s := if 0 < controllers && 0 < services && (0 < repositories || 0 < models) then
      add_architectural_pattern s "Layered Architecture" "high" "call_graph_analysis"
    else s
  let interfaces := (nodes.filter (fun n => n.type == "interface")).length
  let implementations := (nodes.filter (fun n =>
    n.type == "class" && strContains (strToLower n.id) "impl")).length
  if 5 < interfaces && 5 < implementations then
    add_architectural_pattern s "Hexagonal/Clean Architecture" "medium" "call_graph_analysis"
  else s

/-- The folder layout consumed by `_analyze_folder_structure`: the
directory relative paths collected by `os.walk`, and the set of paths for
which `os.path.exists` holds. -/
structure FolderEnv where
  walkDirs : List String := []
  existing : List String := []
deriving DecidableEq

/-- `os.path.exists` over the modelled folder layout. -/
def FolderEnv.exists_ (env : FolderEnv) (p : String) : Bool := env.existing.contains p

/-- `PatternExtractor._analyze_folder_structure`: feature/layer/component
folder counting, microservice and monorepo markers, and framework
scaffolding files. -/
def analyze_folder_structure (repo_path : String) (env : FolderEnv) (s : PFState) : PFState :=
  let directories := env.walkDirs.filter (fun d => d != "." && !(strStartsWith d ".git"))
  let feature_folders := (directories.filter (fun d =>
    ["feature", "module", "domain"].any (fun kw => strContains (strToLower d) kw))).length
  let s := if 1 < feature_folders then
      add_code_organization s "Feature-based Organization" "high" "folder_structure"
    else s
  let layer_folders := (directories.filter (fun d =>
    ["controller", "service", "repository", "model", "dao", "api", "view", "ui"].any
      (fun kw => strContains (strToLower d) kw))).length
  let s := if 2 < layer_folders then
      add_code_organization s "Layer-based Organization" "high" "folder_structure"
    else s
  let component_folders := (directories.filter (fun d =>
    ["component", "widget", "element"].any (fun kw => strContains (strToLower d) kw))).length
  let s := if 2 < component_folders then
      add_code_organization s "Component-based Organization" "high" "folder_structure"
    else s
  let service_folders := (directories.filter (fun d =>
    strContains (strToLower d) "service" &&
      (env.exists_ (joinPath (joinPath repo_path d) "Dockerfile") ||
       env.exists_ (joinPath (joinPath repo_path d) "package.json") ||
       env.exists_ (joinPath (joinPath repo_path d) "setup.py")))).length
  let s := if 1 < service_folders then
      add_architectural_pattern s "Microservices Architecture" "high" "folder_structure"
    else s
  let has_packages := env.exists_ (joinPath repo_path "packages")
  let has_apps := env.exists_ (joinPath repo_path "apps")
  let has_libs := env.exists_ (joinPath repo_path "libs")
  let s := if has_packages || (has_apps && has_libs) then
      add_code_organization s "Monorepo" "high" "folder_structure"
    else s
  let s := if env.exists_ (joinPath repo_path "angular.json") then
      add_code_organization s "Angular CLI Project" "high" "folder_structure"
    else s
  let s := if env.exists_ (joinPath (joinPath (joinPath repo_path "src") "app") "app.module.ts") then
      add_code_organization s "Angular Standard Layout" "high" "folder_structure"
    else s
  let s := if env.exists_ (joinPath (joinPath repo_path "public") "index.html") &&
      (env.exists_ (joinPath (joinPath repo_path "src") "App.js") ||
       env.exists_ (joinPath (joinPath repo_path "src") "App.tsx")) then
      add_code_organization s "Create React App Layout" "high" "folder_structure"
    else s
  let s := if env.exists_ (joinPath repo_path "manage.py") &&
      env.exists_ (joinPath repo_path "requirements.txt") then
      add_code_organization s "Django Project Layout" "high" "folder_structure"
    else s
  if env.exists_ (joinPath repo_path "app.py") && env.exists_ (joinPath repo_path "templates") then
    add_code_organization s "Flask Project Layout" "high" "folder_structure"
  else s

/-- A merged pattern finding
(`{"name", "confidence", "sources", "count"}`). -/
structure Merged where
  name : String
  confidence : String
  sources : List String
  count : Nat
deriving DecidableEq

/-- One step of the per-category merge loop of `_deduplicate_patterns`:
first occurrence of a name creates the entry; later occurrences append the
source, increment the count, and promote the confidence to `high` when the
occurrence carries `high` confidence or the new count exceeds 2. -/
def mergeStep (acc : List Merged) (p : RawObs) : List Merged :=
  if acc.any (fun m => m.name == p.name) then
    acc.map (fun m =>
      if m.name == p.name then
        { m with
          sources := m.sources ++ [p.source]
          count := m.count + 1
          confidence :=
            if p.confidence == "high" || 2 < m.count + 1 then "high" else m.confidence }
      else m)
  else acc ++ [{ name := p.name, confidence := p.confidence, sources := [p.source], count := 1 }]

/-- The per-category merge of `_deduplicate_patterns` (dictionary keyed by
name, in insertion order). -/
def mergeCategory (l : List RawObs) : List Merged := l.foldl mergeStep []

/-- The sort key rank of a confidence value (`0` for `high`, `1` for
`medium`, `2` otherwise). -/
def confRank (c : String) : Nat := if c == "high" then 0 else if c == "medium" then 1 else 2

/-- The stable ascending sort by `(confidence rank, -count)` applied to
each merged category (Python `list.sort` with that key tuple). -/
def sortMerged (l : List Merged) : List Merged :=
  stableSort (fun a b =>
    confRank a.confidence < confRank b.confidence ||
      (confRank a.confidence == confRank b.confidence && b.count ≤ a.count)) l

/-- One merged category: merge then sort. -/
def dedupeCategory (l : List RawObs) : List Merged := sortMerged (mergeCategory l)

/-- The final pattern report
(`{design_patterns, architectural_patterns, code_organization,
language_specific}`). -/
structure Report where
  design_patterns : List Merged
  architectural_patterns : List Merged
  code_organization : List Merged
  language_specific : List (String × List Merged)
deriving DecidableEq

/-- `PatternExtractor._deduplicate_patterns` as a function from the raw
observation state to the final report. -/
def deduplicate_patterns (s : PFState) : Report :=
  { design_patterns := dedupeCategory s.design_patterns
    architectural_patterns := dedupeCategory s.architectural_patterns
    code_organization := dedupeCategory s.code_organization
    language_specific := s.language_specific.map (fun p => (p.1, dedupeCategory p.2)) }

open CallGraphAnalyzer (Results) in
/-- The arguments of one `extract_patterns` call, together with the folder
layout consumed by `_analyze_folder_structure`. -/
structure PXInput where
  repo_path : String := ""
  files : List FileSig := []
  call_graph_results : Option Results := none
  language : Option String := none
  folder : FolderEnv := {}

/-- `PatternExtractor.extract_patterns`: overwrite the instance's
`patterns_found` with the empty category dictionary, filter the files by
language, run the per-file scan, incorporate the call-graph results when
present, analyze the folder structure, deduplicate, and return the final
`patterns_found`.  `self` is the prior instance state (of arbitrary shape,
since the attribute is overwritten before any read); the returned report is
also the new instance state. -/
def extract_patterns {σ : Type} (self : σ) (inp : PXInput) : Report :=
  let files : List FileSig := match inp.language with
    | some lang => inp.files.filter (fun f => strToLower f.code_language == strToLower lang)
    | none => inp.files
  let s := resetState
  let s := files.foldl applyFileSig s
  let s := match inp.call_graph_results with
    | some results => analyze_call_graph_patterns results s
    | none => s
  let s := analyze_folder_structure inp.repo_path inp.folder s
  deduplicate_patterns s

end PatternExtractor

namespace CodeChunker

/-- `self.min_chunk_size` (characters). -/
def min_chunk_size : Nat := 100

/-- `self.max_chunk_size` (characters). -/
def max_chunk_size : Nat := 2000

/-- A metadata value of a chunk dictionary. -/
inductive MVal where
  | s (v : String)
  | n (v : Nat)
  | b (v : Bool)
deriving DecidableEq

/-- A chunk dictionary
(`{"content", "type", "file_path", "language", "metadata"}`). -/
structure Chunk where
  content : String
  type : String
  file_path : String
  language : String
  metadata : List (String × MVal)
deriving DecidableEq

/-- `len(line) + 1` — a line's contribution to `current_size` in
`_chunk_generic` (the `+1` accounts for the newline). -/
def lineSize (l : String) : Nat := l.length + 1

/-- `sum(len(l) + 1 for l in chunk)` — the accumulated size of a line
group. -/
def sizeLines (ls : List String) : Nat := (ls.map lineSize).sum

/-- Python `l[-k:]` for `1 ≤ k ≤ len(l)`. -/
def takeRight {α : Type} (l : List α) (k : Nat) : List α := l.drop (l.length - k)

/-- The loop state of `_chunk_generic`: the closed chunks (as line groups)
and the current accumulating group.  `current_size` is recovered as
`sizeLines cur`, which the Python loop maintains exactly. -/
structure GenAcc where
  chunks : List (List String)
  cur : List String
deriving DecidableEq

/-- One iteration of the line loop of `_chunk_generic`: when adding the
line would exceed `max_chunk_size` while the accumulated size already
exceeds `min_chunk_size`, close the current group and seed the next one
with its last `min(len, 5)` lines; otherwise append the line. -/
def genStep (acc : GenAcc) (line : String) : GenAcc :=
  if sizeLines acc.cur + lineSize line > max_chunk_size ∧ sizeLines acc.cur > min_chunk_size then
    let overlap_lines := Nat.min acc.cur.length 5
    { chunks := acc.chunks ++ [acc.cur], cur := takeRight acc.cur overlap_lines ++ [line] }
  else
    { acc with cur := acc.cur ++ [line] }

/-- The final step of `_chunk_generic`: the last group is emitted only when
it is nonempty and its accumulated size exceeds `min_chunk_size`. -/
def genFinish (acc : GenAcc) : List (List String) :=
  if acc.cur ≠ [] ∧ sizeLines acc.cur > min_chunk_size then acc.chunks ++ [acc.cur]
  else acc.chunks

/-- The line-level loop of `_chunk_generic` (the `len(content) >
max_chunk_size` branch), producing the emitted chunks as line groups. -/
def chunkGenericLines (lines : List String) : List (List String) :=
  genFinish (lines.foldl genStep { chunks := [], cur := [] })

/-- The `code_segment` chunk dictionary built from one emitted line
group. -/
def mkSegmentChunk (file_path language : String) (c : List String) : Chunk :=
  { content := joinLines c
    type := "code_segment"
    file_path := file_path
    language := language
    metadata := [("filename", .s (basename file_path)), ("line_count", .n c.length)] }

/-- `CodeChunker._chunk_generic`: a content at most `max_chunk_size` long
is returned whole as a single `file` chunk; longer content is split by the
line loop. -/
def chunk_generic (file_path content language : String) : List Chunk :=
  let filename := basename file_path
  if content.length ≤ max_chunk_size then
    [{ content := content
       type := "file"
       file_path := file_path
       language := language
       metadata := [("filename", .s filename)] }]
  else
    (chunkGenericLines (splitLines content)).map (mkSegmentChunk file_path language)

/-- The overlap seeded into the group that follows a closed group `c`:
`min(len(c), 5)` lines. -/
def ovLen (c : List String) : Nat := Nat.min c.length 5

/-- Concatenate the emitted groups after the first, each with its overlap
prefix (the last `min(len(prev), 5)` lines of the previous group)
removed. -/
def reconAux (prev : List String) : List (List String) → List String
  | [] => []
  | c :: cs => c.drop (ovLen prev) ++ reconAux c cs

/-- Reassemble the line sequence from the emitted groups by dropping each
non-first group's overlap prefix. -/
def reconstruct : List (List String) → List String
  | [] => []
  | c :: cs => c ++ reconAux c cs

/-- The overlap seeded into the current group by the most recently closed
group (`0` before the first close). -/
def ovChunks : List (List String) → Nat
  | [] => 0
  | c :: cs => ovLen (cs.getLastD c)

/-- The loop invariant of `_chunk_generic`: the closed groups and the
current group (its overlap prefix removed) reassemble exactly the lines
processed so far; the current group is at least as long as its overlap
prefix; every closed group's accumulated size exceeds `min_chunk_size`. -/
def GoodAcc (processed : List String) (acc : GenAcc) : Prop :=
  reconstruct acc.chunks ++ acc.cur.drop (ovChunks acc.chunks) = processed ∧
  ovChunks acc.chunks ≤ acc.cur.length ∧
  ∀ c ∈ acc.chunks, min_chunk_size < sizeLines c

/-- A child statement of a parsed Python module (the shape of the `ast`
nodes that `_chunk_python` inspects).  Stdlib `ast` nodes carry no `parent`
attribute, which is why none is modelled here.  `walkMax` is
`max(n.lineno for n in ast.walk(node) if hasattr(n, "lineno"))`, a value of
the parse. -/
inductive PyStmt where
  | importStmt (lineno : Nat)
  | importFrom (lineno : Nat)
  | classDef (name : String) (lineno : Nat) (walkMax : Nat) (docstring : Option String)
      (body : List PyStmt)
  | functionDef (name : String) (lineno : Nat) (walkMax : Nat)
  | otherStmt

/-- A parsed Python module (`ast.parse` output as consumed by
`_chunk_python`). -/
structure PyModule where
  docstring : Option String := none
  body : List PyStmt := []

/-- Is the statement an `Import` or `ImportFrom` node? -/
def PyStmt.isImport : PyStmt → Bool
  | .importStmt _ => true
  | .importFrom _ => true
  | _ => false

/-- The `lineno` of an import statement (`0` otherwise). -/
def PyStmt.importLineno : PyStmt → Nat
  | .importStmt n => n
  | .importFrom n => n
  | _ => 0

/-- Is the statement a `FunctionDef` node? -/
def PyStmt.isFunctionDef : PyStmt → Bool
  | .functionDef _ _ _ => true
  | _ => false

/-- The uncaught Python exceptions modelled for `_chunk_python`: the
`node.parent` attribute access on a stdlib `ast.FunctionDef` raises
`AttributeError`. -/
inductive PyExc where
  | attributeError
deriving DecidableEq

/-- `CodeChunker._chunk_python`.  A `SyntaxError` from `ast.parse`
(modelled by `parseRes = .error _`) is caught and falls back to generic
chunking.  The standalone-function loop evaluates
`isinstance(node.parent, ast.ClassDef)` for every top-level `FunctionDef`
child; stdlib `ast` nodes have no `parent` attribute, so the first such
child raises `AttributeError`, which the `except SyntaxError` clause does
not catch. -/
def chunk_python (file_path content : String) (parseRes : Except String PyModule) :
    Except PyExc (List Chunk) :=
  match parseRes with
  | .error _ => .ok (chunk_generic file_path content "python")
  | .ok tree =>
    let filename := basename file_path
    let lines := splitLines content
    let module_doc := tree.docstring.getD ""
    let imports := tree.body.filter PyStmt.isImport
    let chunks : List Chunk :=
      if strTruthy module_doc || !imports.isEmpty then
        let max_import_lineno := imports.foldl (fun m st => Nat.max m st.importLineno) 0
        let end_pos := sizeLines (lines.take (max_import_lineno + 1))
        let header := strStrip (String.mk (content.data.take end_pos))
        if header.length > min_chunk_size then
          [{ content := header
             type := "module_header"
             file_path := file_path
             language := "python"
             metadata := [("filename", .s filename),
                          ("has_docstring", .b (strTruthy module_doc))] }]
        else []
      else []
    let chunks := tree.body.foldl (fun chunks st =>
      match st with
      | .classDef class_name lineno walkMax doc body =>
        let class_start := lineno - 1
        let class_end := walkMax
        let class_lines := (lines.take (class_end + 1)).drop class_start
        let class_content := joinLines class_lines
        if class_content.length > max_chunk_size then
          let class_doc := doc.getD ""
          let docstring_lines := if strTruthy class_doc then (splitLines class_doc).length else 0
          let declaration_end := class_start + 1 + docstring_lines + 2
          let first_chunk := joinLines ((lines.take (Nat.min declaration_end lines.length)).drop class_start)
          let chunks := chunks ++
            [{ content := first_chunk
               type := "class_declaration"
               file_path := file_path
               language := "python"
               metadata := [("filename", .s filename), ("class_name", .s class_name)] }]
          body.foldl (fun chunks item =>
            match item with
            | .functionDef method_name mlineno mwalk =>
              let method_lines := (lines.take (mwalk + 1)).drop (mlineno - 1)
              let method_content := joinLines method_lines
              if method_content.length > min_chunk_size then
                chunks ++
                  [{ content := method_content
                     type := "method"
                     file_path := file_path
                     language := "python"
                     metadata := [("filename", .s filename), ("class_name", .s class_name),
                                  ("method_name", .s method_name)] }]
              else chunks
            | _ => chunks) chunks
        else
          chunks ++
            [{ content := class_content
               type := "class"
               file_path := file_path
               language := "python"
               metadata := [("filename", .s filename), ("class_name", .s class_name)] }]
      | _ => chunks) chunks
    if tree.body.any PyStmt.isFunctionDef then .error .attributeError
    else if chunks.isEmpty then .ok (chunks ++ chunk_generic file_path content "python")
    else .ok chunks

/-- An element of a `chunk_file` result: a chunk dictionary or the
structured `{"error": ...}` record returned when the file cannot be
read. -/
inductive ChunkResult where
  | chunk (c : Chunk)
  | errorRec (msg : String)
deriving DecidableEq

/-- `CodeChunker.chunk_file`.  The C# and TypeScript chunkers (the
regex-driven `_chunk_csharp` and `_chunk_typescript`, not exercised by the
claims under verification) are supplied as function parameters; `pyParse`
models `ast.parse`, `readRes` the file read performed when `content` is
`None`.  A failed read yields the structured error record; an uncaught
Python exception is an `Except.error`. -/
def chunk_file (csharpChunker tsChunker : String → String → List Chunk)
    (pyParse : String → Except String PyModule)
    (file_path language : String) (content? : Option String)
    (readRes : Except String String) : Except PyExc (List ChunkResult) :=
  let run (content : String) : Except PyExc (List ChunkResult) :=
    let lang := strToLower language
    if lang == "csharp" || lang == "cs" || lang == "c#" then
      .ok ((csharpChunker file_path content).map .chunk)
    else if lang == "typescript" || lang == "ts" || lang == "javascript" || lang == "js" then
      .ok ((tsChunker file_path content).map .chunk)
    else if lang == "python" || lang == "py" then
      (chunk_python file_path content (pyParse content)).map (fun cs => cs.map .chunk)
    else
      .ok ((chunk_generic file_path content language).map .chunk)
  match content? with
  | some content => run content
  | none =>
    match readRes with
    | .ok content => run content
    | .error e => .ok [.errorRec ("Failed to read file: " ++ e)]

end CodeChunker

section ConcreteInputs

open CallGraphAnalyzer PatternExtractor CodeChunker

/-- Does the graph hold an edge from `u` to `v` whose `type` attribute is
`t`? -/
def hasEdgeOfType (g : Graph) (u v t : String) : Bool :=
  g.edges.any (fun e => e.1 == u && e.2.1 == v && dictGet e.2.2 "type" == some (.s t))

/-- A file-system environment where every read fails and no textual
inheritance match succeeds (the scenarios below never consult it). -/
def envNone : CGEnv :=
  { readFile := fun _ => none, implementsSearch := fun _ _ _ => false }

/-- The extractor output for a C# file declaring `Alpha` (one method `M1`)
and `Beta : Alpha` (one method `M1`) in namespace `N`: the C# extractor
records `Beta`'s base list under `inheritance`. -/
def fileAlphaBeta : CallGraphAnalyzer.FileInfo :=
  { file_path := "n.cs"
    code_language := "csharp"
    namespace_ := "N"
    classes := [{ name := "Alpha", methods := [{ name := "M1" }] },
                { name := "Beta", methods := [{ name := "M1" }], inheritance := ["Alpha"] }] }

/-- The call graph built by `analyze_codebase` over the `Alpha`/`Beta`
file. -/
def graphAlphaBeta : Graph :=
  (analyze_codebase {} { files := [fileAlphaBeta], env := envNone }).1.call_graph

/-- The extractor output for a C# file declaring one class `Foo` in
namespace `N`. -/
def fileFoo : CallGraphAnalyzer.FileInfo :=
  { file_path := "f.cs"
    code_language := "csharp"
    namespace_ := "N"
    classes := [{ name := "Foo" }] }

/-- The call graph built over the `Foo` file (its node stores the
`language = "csharp"` attribute). -/
def graphFoo : Graph :=
  (analyze_codebase {} { files := [fileFoo], env := envNone }).1.call_graph

/-- The extractor output for a C# file carrying a single DI registration
`IFoo -> Foo` (scoped). -/
def fileDi : CallGraphAnalyzer.FileInfo :=
  { file_path := "s.cs"
    code_language := "csharp"
    di_registrations := [{ service_type := some "IFoo"
                           implementation_type := some "Foo"
                           lifetime := "Scoped" }] }

/-- The call graph built over the DI-registration file: it has exactly one
`di_registration` edge. -/
def graphDi : Graph :=
  (analyze_codebase {} { files := [fileDi], env := envNone }).1.call_graph

/-- An `extract_patterns` input holding only the call-graph results of
`graphDi` (no files, empty folder layout). -/
def inpDi : PXInput :=
  { call_graph_results := some (generate_analysis_results graphDi) }

/-- The pattern report produced from `inpDi` by a fresh extractor. -/
def reportDi : Report := extract_patterns () inpDi

/-- A graph holding one controller, one model and one view node. -/
def graphMvc : Graph :=
  ((Graph.empty.add_node "UserController" [("type", .s "class")]).add_node
    "UserModel" [("type", .s "class")]).add_node "UserView" [("type", .s "class")]

/-- A 2,500-character line. -/
def bigLine : String := String.mk (List.replicate 2500 'a')

/-- A generic-chunker input: a 2,500-character first line, five
one-character lines, and a final line `zz`. -/
def linesLoss : List String := [bigLine, "a", "a", "a", "a", "a", "zz"]

/-- The same input as raw file content (2,513 characters, which exceeds
`max_chunk_size`). -/
def contentLoss : String := bigLine ++ "\na\na\na\na\na\nzz"

/-- A 2,001-character single-line content, exceeding `max_chunk_size`. -/
def contentBig : String := String.mk (List.replicate 2001 'a')

/-- The `ast.parse` result of `"def f():\n    pass"`: one top-level
`FunctionDef` named `f` at line 1 whose walk reaches line 2. -/
def pyModTopFun : CodeChunker.PyModule := { body := [.functionDef "f" 1 2] }

/-- An `ast.parse` model returning `pyModTopFun` for the content below. -/
def pyParseTopFun : String → Except String CodeChunker.PyModule := fun _ => .ok pyModTopFun

/-- A well-formed Python file with one top-level function. -/
def contentTopFun : String := "def f():\n    pass"

end ConcreteInputs

namespace CallGraphAnalyzer

theorem edges_add_node (g : Graph) (n : String) (a : Attrs) :
    (g.add_node n a).edges = g.edges := by
  unfold Graph.add_node
  split <;> rfl

theorem fst_ite_update (p : String × Attrs) (n : String) (f : String × Attrs → Attrs) :
    (if p.1 == n then (p.1, f p) else p).1 = p.1 := by
  split <;> rfl

theorem mapFst_update (l : List (String × Attrs)) (n : String) (f : String × Attrs → Attrs) :
    (l.map (fun p => if p.1 == n then (p.1, f p) else p)).map Prod.fst = l.map Prod.fst := by
  induction l with
  | nil => rfl
  | cons p t ih =>
    simp only [List.map_cons, ih, fst_ite_update]

theorem any_fst_eq (l : List (String × Attrs)) (n : String) :
    l.any (fun p => p.1 == n) = (l.map Prod.fst).any (fun k => k == n) := by
  induction l with
  | nil => rfl
  | cons p t ih => simp [ih]

/-- Inserting a node under a key already present takes the update branch. -/
theorem add_node_of_has_node (g : Graph) (n : String) (a : Attrs) (h : g.has_node n = true) :
    g.add_node n a =
      { g with nodes := g.nodes.map (fun p => if p.1 == n then (p.1, dictUpdate p.2 a) else p) } := by
  unfold Graph.add_node
  rw [if_pos h]

theorem has_node_add_node_self (g : Graph) (n : String) (a : Attrs) :
    (g.add_node n a).has_node n = true := by
  by_cases h : g.has_node n
  · rw [add_node_of_has_node g n a h]
    show (g.nodes.map
      (fun p => if p.1 == n then (p.1, dictUpdate p.2 a) else p)).any (fun p => p.1 == n) = true
    rw [any_fst_eq, mapFst_update, ← any_fst_eq]
    exact h
  · unfold Graph.add_node
    rw [if_neg h]
    simp [Graph.has_node, List.any_append]

theorem find?_update (l : List (String × Attrs)) (n : String) (f : String × Attrs → Attrs) :
    (l.map (fun p => if p.1 == n then (p.1, f p) else p)).find? (fun p => p.1 == n) =
      (l.find? (fun p => p.1 == n)).map (fun p => (p.1, f p)) := by
  induction l with
  | nil => rfl
  | cons p t ih =>
    rw [List.map_cons]
    by_cases h : (p.1 == n) = true
    · have hl : List.find? (fun q : String × Attrs => q.1 == n)
          ((p.1, f p) :: t.map (fun p => if p.1 == n then (p.1, f p) else p)) =
            some (p.1, f p) := List.find?_cons_of_pos _ h
      have hr : List.find? (fun q : String × Attrs => q.1 == n) (p :: t) = some p :=
        List.find?_cons_of_pos _ h
      rw [if_pos h, hl, hr]
      rfl
    · have hl : List.find? (fun q : String × Attrs => q.1 == n)
          (p :: t.map (fun p => if p.1 == n then (p.1, f p) else p)) =
            List.find? (fun q : String × Attrs => q.1 == n)
              (t.map (fun p => if p.1 == n then (p.1, f p) else p)) :=
        List.find?_cons_of_neg _ h
      have hr : List.find? (fun q : String × Attrs => q.1 == n) (p :: t) =
          List.find? (fun q : String × Attrs => q.1 == n) t :=
        List.find?_cons_of_neg _ h
      rw [if_neg h, hl, hr, ih]

/-- **C5.** Graph node insertion is idempotent: re-inserting a qualified
name leaves the node count and the key sequence unchanged, only updates
that node's attribute dictionary, and touches no edge. -/
theorem claim_C5_node_insertion_idempotent (g : Graph) (n : String) (a a' : Attrs) :
    ((g.add_node n a).add_node n a').nodes.length = (g.add_node n a).nodes.length ∧
    ((g.add_node n a).add_node n a').nodes.map Prod.fst = (g.add_node n a).nodes.map Prod.fst ∧
    ((g.add_node n a).add_node n a').nodeAttrs n =
      ((g.add_node n a).nodeAttrs n).map (fun d => dictUpdate d a') ∧
    ((g.add_node n a).add_node n a').edges = (g.add_node n a).edges := by
  have h1 : (g.add_node n a).has_node n = true := has_node_add_node_self g n a
  rw [add_node_of_has_node (g.add_node n a) n a' h1]
  refine ⟨List.length_map _ _, mapFst_update _ n _, ?_, rfl⟩
  show (((g.add_node n a).nodes.map
      (fun p => if p.1 == n then (p.1, dictUpdate p.2 a') else p)).find?
        (fun p => p.1 == n)).map (fun p => p.2) =
    (((g.add_node n a).nodes.find? (fun p => p.1 == n)).map (fun p => p.2)).map
      (fun d => dictUpdate d a')
  rw [find?_update]
  cases (g.add_node n a).nodes.find? (fun p => p.1 == n) <;> rfl

end CallGraphAnalyzer

open CallGraphAnalyzer PatternExtractor CodeChunker in
/-- **C9.** The core retains no state between runs: the results of
`analyze_codebase` and the report of `extract_patterns` on an input `B`
after a prior run on `A` coincide with those of a freshly constructed
analyzer/extractor run on `B`. -/
theorem claim_C9_stateless_between_runs :
    (∀ (s : CGState) (A B : CGInput),
      (analyze_codebase (analyze_codebase s A).1 B).2 = (analyze_codebase {} B).2) ∧
    (∀ (σ : Type) (s : σ) (A B : PXInput),
      extract_patterns (extract_patterns s A) B = extract_patterns () B) :=
  ⟨fun _ _ _ => rfl, fun _ _ _ _ => rfl⟩

open CodeChunker in
/-- **C10.** Content no longer than `max_chunk_size` (the empty string
included) is returned by the generic chunker as a single verbatim chunk
with type tag `file`; the `min_chunk_size` lower bound is not applied. -/
theorem claim_C10_small_content_single_chunk (file_path content language : String)
    (h : content.length ≤ max_chunk_size) :
    chunk_generic file_path content language =
      [{ content := content
         type := "file"
         file_path := file_path
         language := language
         metadata := [("filename", .s (basename file_path))] }] := by
  unfold chunk_generic
  rw [if_pos h]

open CodeChunker in
/-- Witness for **C10** at the empty content. -/
theorem claim_C10_witness :
    "".length ≤ max_chunk_size ∧
      chunk_generic "m.txt" "" "text" =
        [{ content := ""
           type := "file"
           file_path := "m.txt"
           language := "text"
           metadata := [("filename", .s (basename "m.txt"))] }] :=
  ⟨by decide, claim_C10_small_content_single_chunk "m.txt" "" "text" (by decide)⟩

open PatternExtractor in
/-- **C4.** Merging `{Factory, medium, a.cs}` and `{Factory, medium, b.cs}`
within one category yields count 2, sources `a.cs, b.cs` and `medium`
confidence; a third medium observation, or an observation carrying `high`
confidence, promotes the merged confidence to `high`. -/
theorem claim_C4_pattern_merge :
    dedupeCategory [⟨"Factory Pattern", "medium", "a.cs"⟩, ⟨"Factory Pattern", "medium", "b.cs"⟩] =
      [{ name := "Factory Pattern", confidence := "medium",
         sources := ["a.cs", "b.cs"], count := 2 }] ∧
    dedupeCategory [⟨"Factory Pattern", "medium", "a.cs"⟩, ⟨"Factory Pattern", "medium", "b.cs"⟩,
        ⟨"Factory Pattern", "medium", "c.cs"⟩] =
      [{ name := "Factory Pattern", confidence := "high",
         sources := ["a.cs", "b.cs", "c.cs"], count := 3 }] ∧
    dedupeCategory [⟨"Factory Pattern", "medium", "a.cs"⟩, ⟨"Factory Pattern", "high", "b.cs"⟩] =
      [{ name := "Factory Pattern", confidence := "high",
         sources := ["a.cs", "b.cs"], count := 2 }] := by
  decide

/-- **C1 (counterexample).** The `Alpha`/`Beta` scenario produces the four
expected nodes and the two `contains` edges, but no `inherits` edge from
`N.Beta` to `N.Alpha`: the claim is false on the code. -/
theorem claim_C1_counterexample :
    graphAlphaBeta.has_node "N.Alpha" = true ∧
    graphAlphaBeta.has_node "N.Alpha.M1" = true ∧
    graphAlphaBeta.has_node "N.Beta" = true ∧
    graphAlphaBeta.has_node "N.Beta.M1" = true ∧
    hasEdgeOfType graphAlphaBeta "N.Alpha" "N.Alpha.M1" "contains" = true ∧
    hasEdgeOfType graphAlphaBeta "N.Beta" "N.Beta.M1" "contains" = true ∧
    hasEdgeOfType graphAlphaBeta "N.Beta" "N.Alpha" "inherits" = false := by
  decide

open CallGraphAnalyzer in
/-- **C1 (amended).** Building the call graph over the `Alpha`/`Beta`
scenario produces exactly the nodes `N.Alpha`, `N.Alpha.M1`, `N.Beta`,
`N.Beta.M1` and exactly the two `contains` edges — and no `inherits` edge,
because the C# analyzer ignores class base lists and the cross-file pass
only adds `implements` edges toward interface nodes. -/
theorem claim_C1_amended :
    graphAlphaBeta.nodes.map Prod.fst = ["N.Alpha", "N.Alpha.M1", "N.Beta", "N.Beta.M1"] ∧
    graphAlphaBeta.edges.map (fun e => (e.1, e.2.1, dictGetS e.2.2 "type" "unknown")) =
      [("N.Alpha", "N.Alpha.M1", "contains"), ("N.Beta", "N.Beta.M1", "contains")] := by
  decide

open CallGraphAnalyzer in
/-- **C6 (code bug).** The exported view of the one-class graph holds
exactly one record per node and per edge, but its per-node language field
is the key `code_language` and is always `"unknown"`, even though the node
stores `language = "csharp"`: the export reads an attribute the builder
never writes. -/
theorem claim_C6_export_language_bug :
    export_graph_to_json graphFoo =
      { nodes := [{ id := "N.Foo", type := "class", code_language := "unknown",
                    file_path := "f.cs" }]
        links := [] } ∧
    dictGet ((graphFoo.nodeAttrs "N.Foo").getD []) "language" = some (.s "csharp") := by
  decide

open CodeChunker in
/-- **C3 (code bug).** `chunk_file` on the well-formed Python input
`"def f():\n    pass"` raises `AttributeError` instead of returning a
result: the standalone-function loop of `_chunk_python` reads the
nonexistent `parent` attribute of a stdlib `ast.FunctionDef` node, and the
surrounding handler only catches `SyntaxError`. -/
theorem claim_C3_chunk_file_raises (csharpChunker tsChunker : String → String → List Chunk)
    (readRes : Except String String) :
    chunk_file csharpChunker tsChunker pyParseTopFun "f.py" "python" (some contentTopFun)
      readRes = .error .attributeError := by
  rfl

namespace CallGraphAnalyzer

theorem mem_mvcPattern (g : Graph) (p : PatternRec) (h : p ∈ mvcPattern g) :
    (0 < mvcControllers g ∧ 0 < mvcModels g ∧ 0 < mvcViews g) ∧
      p = { name := "MVC (Model-View-Controller)"
            confidence :=
              if 2 < Nat.min (mvcControllers g) (Nat.min (mvcModels g) (mvcViews g))
              then "high" else "medium"
            components := [("controllers", mvcControllers g), ("models", mvcModels g),
                           ("views", mvcViews g)] } := by
  unfold mvcPattern at h
  split at h
  · next hc => exact ⟨hc, List.mem_singleton.mp h⟩
  · exact absurd h (List.not_mem_nil p)

theorem name_of_mem_repositoryPattern (g : Graph) (p : PatternRec)
    (h : p ∈ repositoryPattern g) : p.name = "Repository Pattern" := by
  unfold repositoryPattern at h
  split at h
  · rw [List.mem_singleton.mp h]
  · exact absurd h (List.not_mem_nil p)

theorem name_of_mem_servicePattern (g : Graph) (p : PatternRec)
    (h : p ∈ servicePattern g) : p.name = "Service Pattern" := by
  unfold servicePattern at h
  split at h
  · rw [List.mem_singleton.mp h]
  · exact absurd h (List.not_mem_nil p)

theorem name_of_mem_factoryPattern (g : Graph) (p : PatternRec)
    (h : p ∈ factoryPattern g) : p.name = "Factory Pattern" := by
  unfold factoryPattern at h
  split at h
  · rw [List.mem_singleton.mp h]
  · exact absurd h (List.not_mem_nil p)

theorem name_of_mem_diPattern (g : Graph) (p : PatternRec)
    (h : p ∈ diPattern g) : p.name = "Dependency Injection" := by
  unfold diPattern at h
  split at h
  · rw [List.mem_singleton.mp h]
  · exact absurd h (List.not_mem_nil p)

theorem mem_of_mvc_name (g : Graph) (p : PatternRec)
    (hp : p ∈ identify_architectural_patterns g)
    (hn : p.name = "MVC (Model-View-Controller)") : p ∈ mvcPattern g := by
  unfold identify_architectural_patterns at hp
  rcases List.mem_append.mp hp with hp | hdi
  rcases List.mem_append.mp hp with hp | hfac
  rcases List.mem_append.mp hp with hp | hsvc
  rcases List.mem_append.mp hp with hmvc | hrepo
  · exact hmvc
  · rw [name_of_mem_repositoryPattern g p hrepo] at hn
    exact absurd hn (by decide)
  · rw [name_of_mem_servicePattern g p hsvc] at hn
    exact absurd hn (by decide)
  · rw [name_of_mem_factoryPattern g p hfac] at hn
    exact absurd hn (by decide)
  · rw [name_of_mem_diPattern g p hdi] at hn
    exact absurd hn (by decide)

/-- **C7.** The graph-topology MVC heuristic emits its finding exactly when
each of the controller, model and view families is populated, with `high`
confidence exactly when every family count exceeds 2 and `medium`
otherwise. -/
theorem claim_C7_mvc_heuristic (g : Graph) :
    ((∃ p ∈ identify_architectural_patterns g, p.name = "MVC (Model-View-Controller)") ↔
      (0 < mvcControllers g ∧ 0 < mvcModels g ∧ 0 < mvcViews g)) ∧
    (∀ p ∈ identify_architectural_patterns g, p.name = "MVC (Model-View-Controller)" →
      p.confidence =
        if 2 < mvcControllers g ∧ 2 < mvcModels g ∧ 2 < mvcViews g then "high"
        else "medium") := by
  have hconf :
      (if 2 < Nat.min (mvcControllers g) (Nat.min (mvcModels g) (mvcViews g))
        then "high" else "medium") =
      (if 2 < mvcControllers g ∧ 2 < mvcModels g ∧ 2 < mvcViews g then "high"
        else "medium") := by
    apply if_congr _ rfl rfl
    rw [Nat.lt_min, Nat.lt_min]
  constructor
  · constructor
    · rintro ⟨p, hp, hn⟩
      exact (mem_mvcPattern g p (mem_of_mvc_name g p hp hn)).1
    · intro hc
      refine ⟨{ name := "MVC (Model-View-Controller)"
                confidence :=
                  if 2 < Nat.min (mvcControllers g) (Nat.min (mvcModels g) (mvcViews g))
                  then "high" else "medium"
                components := [("controllers", mvcControllers g), ("models", mvcModels g),
                               ("views", mvcViews g)] }, ?_, rfl⟩
      unfold identify_architectural_patterns
      apply List.mem_append_left
      apply List.mem_append_left
      apply List.mem_append_left
      apply List.mem_append_left
      unfold mvcPattern
      rw [if_pos hc]
      exact List.mem_singleton_self _
  · intro p hp hn
    rcases mem_mvcPattern g p (mem_of_mvc_name g p hp hn) with ⟨_, rfl⟩
    exact hconf

end CallGraphAnalyzer

open CallGraphAnalyzer in
/-- Witness for **C7** at a graph holding one controller, one model and one
view node. -/
theorem claim_C7_witness :
    (0 < mvcControllers graphMvc ∧ 0 < mvcModels graphMvc ∧ 0 < mvcViews graphMvc) ∧
      ∃ p ∈ identify_architectural_patterns graphMvc,
        p.name = "MVC (Model-View-Controller)" :=
  ⟨by decide, (claim_C7_mvc_heuristic graphMvc).1.mpr (by decide)⟩

theorem mem_insertSorted {α : Type} (le : α → α → Bool) (x y : α) (l : List α) :
    y ∈ insertSorted le x l ↔ y = x ∨ y ∈ l := by
  induction l with
  | nil => simp [insertSorted]
  | cons z zs ih =>
    unfold insertSorted
    split
    · simp [List.mem_cons]
    · simp only [List.mem_cons, ih]
      tauto

theorem mem_stableSort {α : Type} (le : α → α → Bool) (y : α) (l : List α) :
    y ∈ stableSort le l ↔ y ∈ l := by
  induction l with
  | nil => simp [stableSort]
  | cons x xs ih =>
    unfold stableSort
    rw [mem_insertSorted]
    simp [List.mem_cons, ih]

namespace PatternExtractor

theorem mergeStep_preserves_high (acc : List Merged) (p : RawObs) (n : String)
    (h : ∃ m ∈ acc, m.name = n ∧ m.confidence = "high") :
    ∃ m ∈ mergeStep acc p, m.name = n ∧ m.confidence = "high" := by
  rcases h with ⟨m, hm, hname, hconf⟩
  unfold mergeStep
  split
  · refine ⟨_, List.mem_map_of_mem _ hm, ?_⟩
    split
    · refine ⟨hname, ?_⟩
      show (if p.confidence == "high" || 2 < m.count + 1 then "high" else m.confidence) = "high"
      split
      · rfl
      · exact hconf
    · exact ⟨hname, hconf⟩
  · exact ⟨m, List.mem_append_left _ hm, hname, hconf⟩

theorem mergeStep_introduces_high (acc : List Merged) (p : RawObs)
    (hconf : p.confidence = "high") :
    ∃ m ∈ mergeStep acc p, m.name = p.name ∧ m.confidence = "high" := by
  unfold mergeStep
  split
  · next hfound =>
    rcases List.any_eq_true.mp hfound with ⟨m, hm, hmp⟩
    refine ⟨_, List.mem_map_of_mem _ hm, ?_⟩
    have hne : m.name = p.name := by simpa using hmp
    simp [hmp, hne, hconf]
  · exact ⟨_, List.mem_append_right _ (List.mem_singleton_self _), rfl, hconf⟩

theorem foldl_mergeStep_preserves (l : List RawObs) (acc : List Merged) (n : String)
    (h : ∃ m ∈ acc, m.name = n ∧ m.confidence = "high") :
    ∃ m ∈ l.foldl mergeStep acc, m.name = n ∧ m.confidence = "high" := by
  induction l generalizing acc with
  | nil => exact h
  | cons p ps ih => exact ih _ (mergeStep_preserves_high acc p n h)

theorem mergeCategory_high (l : List RawObs) (n : String)
    (h : ∃ o ∈ l, o.name = n ∧ o.confidence = "high") :
    ∃ m ∈ mergeCategory l, m.name = n ∧ m.confidence = "high" := by
  unfold mergeCategory
  suffices H : ∀ acc : List Merged,
      ∃ m ∈ l.foldl mergeStep acc, m.name = n ∧ m.confidence = "high" from H []
  intro acc
  induction l generalizing acc with
  | nil =>
    rcases h with ⟨o, ho, _⟩
    exact absurd ho (List.not_mem_nil o)
  | cons o os ih =>
    rcases h with ⟨o', ho', hn, hc⟩
    rcases List.mem_cons.mp ho' with rfl | hmem
    · exact foldl_mergeStep_preserves os (mergeStep acc o') n
        (hn ▸ mergeStep_introduces_high acc o' hc)
    · exact ih ⟨o', hmem, hn, hc⟩ _

theorem design_ite_addarch (c : Prop) [Decidable c] (x : PFState) (n cf src : String) :
    (if c then add_architectural_pattern x n cf src else x).design_patterns =
      x.design_patterns := by
  split <;> rfl

theorem design_ite_addorg (c : Prop) [Decidable c] (x : PFState) (n cf src : String) :
    (if c then add_code_organization x n cf src else x).design_patterns =
      x.design_patterns := by
  split <;> rfl

theorem design_analyze_call_graph_patterns (r : CallGraphAnalyzer.Results) (s : PFState) :
    (analyze_call_graph_patterns r s).design_patterns =
      (r.patterns.foldl applyCGPattern s).design_patterns := by
  unfold analyze_call_graph_patterns
  simp only [design_ite_addarch]

theorem design_analyze_folder_structure (repo : String) (env : FolderEnv) (s : PFState) :
    (analyze_folder_structure repo env s).design_patterns = s.design_patterns := by
  unfold analyze_folder_structure
  simp only [design_ite_addorg, design_ite_addarch]

theorem design_applyCGPattern (s : PFState) (q : CallGraphAnalyzer.PatternRec) :
    ∃ ext, (applyCGPattern s q).design_patterns = s.design_patterns ++ ext := by
  unfold applyCGPattern add_architectural_pattern add_design_pattern
  repeat' split
  all_goals first
    | exact ⟨[], (List.append_nil _).symm⟩
    | exact ⟨_, rfl⟩

theorem mem_design_applyCGPattern (s : PFState) (q : CallGraphAnalyzer.PatternRec)
    (obs : RawObs) (h : obs ∈ s.design_patterns) :
    obs ∈ (applyCGPattern s q).design_patterns := by
  rcases design_applyCGPattern s q with ⟨ext, he⟩
  rw [he]
  exact List.mem_append_left _ h

theorem mem_design_foldl_applyCGPattern (l : List CallGraphAnalyzer.PatternRec) (s : PFState)
    (obs : RawObs) (h : obs ∈ s.design_patterns) :
    obs ∈ (l.foldl applyCGPattern s).design_patterns := by
  induction l generalizing s with
  | nil => exact h
  | cons q qs ih => exact ih _ (mem_design_applyCGPattern s q obs h)

theorem di_obs_mem_foldl (l : List CallGraphAnalyzer.PatternRec) (s : PFState)
    (q : CallGraphAnalyzer.PatternRec) (hq : q ∈ l)
    (hn : q.name = "Dependency Injection") (hc : q.confidence = "high") :
    (⟨"Dependency Injection", "high", "call_graph_analysis"⟩ : RawObs) ∈
      (l.foldl applyCGPattern s).design_patterns := by
  induction l generalizing s with
  | nil => exact absurd hq (List.not_mem_nil q)
  | cons q' qs ih =>
    rcases List.mem_cons.mp hq with rfl | hmem
    · have happ : applyCGPattern s q =
          add_design_pattern s "Dependency Injection" "high" "call_graph_analysis" := by
        unfold applyCGPattern
        rw [hn, hc]
        rfl
      refine mem_design_foldl_applyCGPattern qs (applyCGPattern s q) _ ?_
      rw [happ]
      exact List.mem_append_right _ (List.mem_singleton_self _)
    · exact ih _ hmem

end PatternExtractor

open CallGraphAnalyzer PatternExtractor in
/-- **C8 (amended).** Whenever the built graph holds at least one
`di_registration` edge, the final pattern report includes a Dependency
Injection finding with `high` confidence — filed under the design-patterns
category (`_analyze_call_graph_patterns` re-files the graph signal through
`_add_design_pattern`). -/
theorem claim_C8_amended {σ : Type} (self : σ) (g : Graph) (inp : PXInput)
    (hcg : inp.call_graph_results = some (generate_analysis_results g))
    (hdi : ∃ e ∈ g.edges, dictGet e.2.2 "type" = some (.s "di_registration")) :
    ∃ m ∈ (extract_patterns self inp).design_patterns,
      m.name = "Dependency Injection" ∧ m.confidence = "high" := by
  have hcount : 0 < diEdgeCount g := by
    rcases hdi with ⟨e, he, ht⟩
    have hmemf : e ∈ g.edges.filter
        (fun e => dictGet e.2.2 "type" == some (.s "di_registration")) :=
      List.mem_filter.mpr ⟨he, by rw [ht]; simp⟩
    exact List.length_pos.mpr (List.ne_nil_of_mem hmemf)
  have hdirec : (⟨"Dependency Injection", "high",
      [("di_registrations", diEdgeCount g)]⟩ : PatternRec) ∈
        (generate_analysis_results g).patterns := by
    show _ ∈ identify_architectural_patterns g
    unfold identify_architectural_patterns
    apply List.mem_append_right
    unfold diPattern
    rw [if_pos hcount]
    exact List.mem_singleton_self _
  have hx : extract_patterns self inp =
      deduplicate_patterns (analyze_folder_structure inp.repo_path inp.folder
        (analyze_call_graph_patterns (generate_analysis_results g)
          (((match inp.language with
              | some lang => inp.files.filter
                  (fun f => strToLower f.code_language == strToLower lang)
              | none => inp.files) : List FileSig).foldl applyFileSig resetState))) := by
    unfold extract_patterns
    rw [hcg]
  rw [hx]
  have hobs : (⟨"Dependency Injection", "high", "call_graph_analysis"⟩ : RawObs) ∈
      (analyze_folder_structure inp.repo_path inp.folder
        (analyze_call_graph_patterns (generate_analysis_results g)
          (((match inp.language with
              | some lang => inp.files.filter
                  (fun f => strToLower f.code_language == strToLower lang)
              | none => inp.files) : List FileSig).foldl applyFileSig
                resetState))).design_patterns := by
    rw [design_analyze_folder_structure, design_analyze_call_graph_patterns]
    exact di_obs_mem_foldl _ _ _ hdirec rfl rfl
  rcases mergeCategory_high _ "Dependency Injection" ⟨_, hobs, rfl, rfl⟩ with ⟨m, hm, hp⟩
  exact ⟨m, (mem_stableSort _ _ _).mpr hm, hp⟩

open CallGraphAnalyzer PatternExtractor in
/-- Witness for **C8 (amended)** at the single-DI-registration graph. -/
theorem claim_C8_witness :
    (∃ e ∈ graphDi.edges, dictGet e.2.2 "type" = some (.s "di_registration")) ∧
      ∃ m ∈ (extract_patterns () inpDi).design_patterns,
        m.name = "Dependency Injection" ∧ m.confidence = "high" :=
  ⟨by decide, claim_C8_amended () graphDi inpDi rfl (by decide)⟩

open CallGraphAnalyzer PatternExtractor in
/-- **C8 (counterexample).** For the single-DI-registration graph, the
report's architectural-patterns category holds no Dependency Injection
finding (the graph signal lands under design patterns instead): the claim
as stated is false. -/
theorem claim_C8_counterexample :
    0 < diEdgeCount graphDi ∧
      ¬ ∃ m ∈ reportDi.architectural_patterns, m.name = "Dependency Injection" := by
  decide

namespace CodeChunker

theorem length_takeRight {α : Type} (l : List α) (k : Nat) (h : k ≤ l.length) :
    (takeRight l k).length = k := by
  unfold takeRight
  rw [List.length_drop]
  omega

theorem sizeLines_append (l r : List String) :
    sizeLines (l ++ r) = sizeLines l + sizeLines r := by
  unfold sizeLines
  rw [List.map_append, List.sum_append]

theorem sizeLines_drop_le (l : List String) (k : Nat) :
    sizeLines (l.drop k) ≤ sizeLines l := by
  conv_rhs => rw [← List.take_append_drop k l]
  rw [sizeLines_append]
  omega

theorem ovChunks_append (cs : List (List String)) (c : List String) :
    ovChunks (cs ++ [c]) = ovLen c := by
  cases cs with
  | nil => rfl
  | cons c0 cs' =>
    show ovLen ((cs' ++ [c]).getLastD c0) = ovLen c
    rw [List.getLastD_concat]

theorem reconAux_append (cs : List (List String)) (prev c : List String) :
    reconAux prev (cs ++ [c]) = reconAux prev cs ++ c.drop (ovLen (cs.getLastD prev)) := by
  induction cs generalizing prev with
  | nil => simp [reconAux]
  | cons d ds ih =>
    show d.drop (ovLen prev) ++ reconAux d (ds ++ [c]) =
      (d.drop (ovLen prev) ++ reconAux d ds) ++ c.drop (ovLen ((d :: ds).getLastD prev))
    rw [ih d, List.append_assoc, List.getLastD_cons]

theorem reconstruct_append (cs : List (List String)) (c : List String) :
    reconstruct (cs ++ [c]) = reconstruct cs ++ c.drop (ovChunks cs) := by
  cases cs with
  | nil => simp [reconstruct, reconAux, ovChunks]
  | cons c0 cs' =>
    show c0 ++ reconAux c0 (cs' ++ [c]) =
      (c0 ++ reconAux c0 cs') ++ c.drop (ovChunks (c0 :: cs'))
    rw [reconAux_append, List.append_assoc]
    rfl

theorem goodAcc_init : GoodAcc [] { chunks := [], cur := [] } :=
  ⟨rfl, Nat.le_refl 0, fun c h => absurd h (List.not_mem_nil c)⟩

theorem goodAcc_step (processed : List String) (acc : GenAcc) (line : String)
    (h : GoodAcc processed acc) : GoodAcc (processed ++ [line]) (genStep acc line) := by
  obtain ⟨hrec, hov, hmin⟩ := h
  unfold genStep
  split
  · next hclose =>
    have hovle : Nat.min acc.cur.length 5 ≤ acc.cur.length := Nat.min_le_left _ _
    have hlen : (takeRight acc.cur (Nat.min acc.cur.length 5)).length =
        Nat.min acc.cur.length 5 := length_takeRight _ _ hovle
    refine ⟨?_, ?_, ?_⟩
    · show reconstruct (acc.chunks ++ [acc.cur]) ++
        (takeRight acc.cur (Nat.min acc.cur.length 5) ++ [line]).drop
          (ovChunks (acc.chunks ++ [acc.cur])) = processed ++ [line]
      rw [reconstruct_append, ovChunks_append]
      have hdrop : (takeRight acc.cur (Nat.min acc.cur.length 5) ++ [line]).drop
          (ovLen acc.cur) = [line] := by
        have hx : ovLen acc.cur = (takeRight acc.cur (Nat.min acc.cur.length 5)).length := by
          rw [hlen]
          rfl
        rw [hx, List.drop_left]
      rw [hdrop, hrec]
    · show ovChunks (acc.chunks ++ [acc.cur]) ≤
        (takeRight acc.cur (Nat.min acc.cur.length 5) ++ [line]).length
      rw [ovChunks_append, List.length_append, hlen]
      show Nat.min acc.cur.length 5 ≤ Nat.min acc.cur.length 5 + 1
      omega
    · intro c hc
      rcases List.mem_append.mp hc with hc | hc
      · exact hmin c hc
      · rw [List.mem_singleton.mp hc]
        exact hclose.2
  · next hkeep =>
    refine ⟨?_, ?_, hmin⟩
    · show reconstruct acc.chunks ++ (acc.cur ++ [line]).drop (ovChunks acc.chunks) =
        processed ++ [line]
      rw [List.drop_append_of_le_length hov, ← List.append_assoc, hrec]
    · show ovChunks acc.chunks ≤ (acc.cur ++ [line]).length
      rw [List.length_append]
      omega

theorem goodAcc_foldl (ls : List String) (processed : List String) (acc : GenAcc)
    (h : GoodAcc processed acc) : GoodAcc (processed ++ ls) (ls.foldl genStep acc) := by
  induction ls generalizing processed acc with
  | nil => simpa using h
  | cons l ls ih =>
    have hstep := ih (processed ++ [l]) (genStep acc l) (goodAcc_step processed acc l h)
    rw [List.append_assoc] at hstep
    exact hstep

theorem chunkGenericLines_spec (lines : List String) :
    (∀ c ∈ chunkGenericLines lines, min_chunk_size < sizeLines c) ∧
    ∃ rest, reconstruct (chunkGenericLines lines) ++ rest = lines ∧
      sizeLines rest ≤ min_chunk_size := by
  have h := goodAcc_foldl lines [] { chunks := [], cur := [] } goodAcc_init
  rw [List.nil_append] at h
  obtain ⟨hrec, hov, hmin⟩ := h
  unfold chunkGenericLines genFinish
  split
  · next hkeep =>
    refine ⟨?_, [], ?_, ?_⟩
    · intro c hc
      rcases List.mem_append.mp hc with hc | hc
      · exact hmin c hc
      · rw [List.mem_singleton.mp hc]
        exact hkeep.2
    · rw [List.append_nil, reconstruct_append, hrec]
    · exact Nat.zero_le _
  · next hdropped =>
    refine ⟨fun c hc => hmin c hc,
      (lines.foldl genStep { chunks := [], cur := [] }).cur.drop
        (ovChunks (lines.foldl genStep { chunks := [], cur := [] }).chunks), hrec, ?_⟩
    refine Nat.le_trans (sizeLines_drop_le _ _) ?_
    rcases not_and_or.mp hdropped with hnil | hsize
    · rw [not_ne_iff.mp hnil]
      exact Nat.zero_le _
    · exact Nat.le_of_not_lt hsize

end CodeChunker

open CodeChunker in
/-- **C2 (amended).** For content longer than `max_chunk_size`, the generic
chunker runs the line loop; every emitted chunk's accumulated size exceeds
`min_chunk_size` (but, as the counterexample shows, can exceed
`max_chunk_size`); dropping each non-first chunk's overlap prefix (the last
`min(5, previous chunk's line count)` lines of the previous chunk) and
concatenating reassembles a prefix of the input lines that is the whole
input except possibly a dropped trailing group of accumulated size at most
`min_chunk_size`. -/
theorem claim_C2_generic_chunker (file_path language content : String)
    (h : max_chunk_size < content.length) :
    chunk_generic file_path content language =
      (chunkGenericLines (splitLines content)).map (mkSegmentChunk file_path language) ∧
    (∀ c ∈ chunkGenericLines (splitLines content), min_chunk_size < sizeLines c) ∧
    ∃ rest, reconstruct (chunkGenericLines (splitLines content)) ++ rest =
        splitLines content ∧ sizeLines rest ≤ min_chunk_size := by
  refine ⟨?_, (chunkGenericLines_spec _).1, (chunkGenericLines_spec _).2⟩
  unfold chunk_generic
  rw [if_neg (Nat.not_le.mpr h)]

open CodeChunker in
/-- Witness for **C2 (amended)** at a 2,001-character content. -/
theorem claim_C2_witness :
    max_chunk_size < contentBig.length ∧
      (chunk_generic "w.txt" contentBig "text" =
        (chunkGenericLines (splitLines contentBig)).map (mkSegmentChunk "w.txt" "text") ∧
      (∀ c ∈ chunkGenericLines (splitLines contentBig), min_chunk_size < sizeLines c) ∧
      ∃ rest, reconstruct (chunkGenericLines (splitLines contentBig)) ++ rest =
          splitLines contentBig ∧ sizeLines rest ≤ min_chunk_size) := by
  have h1 : contentBig.length = 2001 := by
    show (List.replicate 2001 'a').length = 2001
    exact List.length_replicate _ _
  have hlen : max_chunk_size < contentBig.length := by
    rw [h1]
    decide
  exact ⟨hlen, claim_C2_generic_chunker "w.txt" "text" contentBig hlen⟩

theorem bigLine_length : bigLine.length = 2500 := by
  show (List.replicate 2500 'a').length = 2500
  exact List.length_replicate _ _

open CodeChunker in
theorem sizeLines_cons (l : String) (r : List String) :
    sizeLines (l :: r) = (l.length + 1) + sizeLines r := rfl

open CodeChunker in
theorem chunkGenericLines_linesLoss :
    chunkGenericLines linesLoss =
      [[bigLine], [bigLine, "a"], [bigLine, "a", "a"], [bigLine, "a", "a", "a"],
       [bigLine, "a", "a", "a", "a"], [bigLine, "a", "a", "a", "a", "a"]] := by
  have hsb0 : sizeLines [bigLine] = 2501 := by
    rw [sizeLines_cons, bigLine_length]
    decide
  have hsb1 : sizeLines [bigLine, "a"] = 2503 := by
    rw [sizeLines_cons, bigLine_length]
    decide
  have hsb2 : sizeLines [bigLine, "a", "a"] = 2505 := by
    rw [sizeLines_cons, bigLine_length]
    decide
  have hsb3 : sizeLines [bigLine, "a", "a", "a"] = 2507 := by
    rw [sizeLines_cons, bigLine_length]
    decide
  have hsb4 : sizeLines [bigLine, "a", "a", "a", "a"] = 2509 := by
    rw [sizeLines_cons, bigLine_length]
    decide
  have hsb5 : sizeLines [bigLine, "a", "a", "a", "a", "a"] = 2511 := by
    rw [sizeLines_cons, bigLine_length]
    decide
  have st1 : genStep ⟨[], []⟩ bigLine = ⟨[], [bigLine]⟩ := by
    unfold genStep
    rw [if_neg]
    · rfl
    · rintro ⟨-, h2⟩
      exact absurd h2 (by decide)
  have st2 : genStep ⟨[], [bigLine]⟩ "a" = ⟨[[bigLine]], [bigLine, "a"]⟩ := by
    unfold genStep
    rw [if_pos ⟨by rw [hsb0]; decide, by rw [hsb0]; decide⟩]
    rfl
  have st3 : genStep ⟨[[bigLine]], [bigLine, "a"]⟩ "a" =
      ⟨[[bigLine], [bigLine, "a"]], [bigLine, "a", "a"]⟩ := by
    unfold genStep
    rw [if_pos ⟨by rw [hsb1]; decide, by rw [hsb1]; decide⟩]
    rfl
  have st4 : genStep ⟨[[bigLine], [bigLine, "a"]], [bigLine, "a", "a"]⟩ "a" =
      ⟨[[bigLine], [bigLine, "a"], [bigLine, "a", "a"]], [bigLine, "a", "a", "a"]⟩ := by
    unfold genStep
    rw [if_pos ⟨by rw [hsb2]; decide, by rw [hsb2]; decide⟩]
    rfl
  have st5 : genStep ⟨[[bigLine], [bigLine, "a"], [bigLine, "a", "a"]],
      [bigLine, "a", "a", "a"]⟩ "a" =
      ⟨[[bigLine], [bigLine, "a"], [bigLine, "a", "a"], [bigLine, "a", "a", "a"]],
        [bigLine, "a", "a", "a", "a"]⟩ := by
    unfold genStep
    rw [if_pos ⟨by rw [hsb3]; decide, by rw [hsb3]; decide⟩]
    rfl
  have st6 : genStep ⟨[[bigLine], [bigLine, "a"], [bigLine, "a", "a"],
      [bigLine, "a", "a", "a"]], [bigLine, "a", "a", "a", "a"]⟩ "a" =
      ⟨[[bigLine], [bigLine, "a"], [bigLine, "a", "a"], [bigLine, "a", "a", "a"],
        [bigLine, "a", "a", "a", "a"]], [bigLine, "a", "a", "a", "a", "a"]⟩ := by
    unfold genStep
    rw [if_pos ⟨by rw [hsb4]; decide, by rw [hsb4]; decide⟩]
    rfl
  have st7 : genStep ⟨[[bigLine], [bigLine, "a"], [bigLine, "a", "a"],
      [bigLine, "a", "a", "a"], [bigLine, "a", "a", "a", "a"]],
      [bigLine, "a", "a", "a", "a", "a"]⟩ "zz" =
      ⟨[[bigLine], [bigLine, "a"], [bigLine, "a", "a"], [bigLine, "a", "a", "a"],
        [bigLine, "a", "a", "a", "a"], [bigLine, "a", "a", "a", "a", "a"]],
        ["a", "a", "a", "a", "a", "zz"]⟩ := by
    unfold genStep
    rw [if_pos ⟨by rw [hsb5]; decide, by rw [hsb5]; decide⟩]
    rfl
  show genFinish (List.foldl genStep ⟨[], []⟩
    [bigLine, "a", "a", "a", "a", "a", "zz"]) = _
  rw [List.foldl_cons, st1, List.foldl_cons, st2, List.foldl_cons, st3, List.foldl_cons, st4,
    List.foldl_cons, st5, List.foldl_cons, st6, List.foldl_cons, st7, List.foldl_nil]
  unfold genFinish
  rw [if_neg]
  rintro ⟨-, h2⟩
  exact absurd h2 (by decide)

theorem splitCharsOn_ne_nil (c : Char) (l : List Char) : splitCharsOn c l ≠ [] := by
  cases l with
  | nil => simp [splitCharsOn]
  | cons x xs =>
    unfold splitCharsOn
    split
    · simp
    · split <;> simp

theorem splitCharsOn_cons_ne (c x : Char) (xs : List Char) (h : x ≠ c) :
    splitCharsOn c (x :: xs) =
      (match splitCharsOn c xs with
        | [] => [[x]]
        | p :: ps => (x :: p) :: ps) := by
  simp only [splitCharsOn]
  rw [if_neg h]

theorem splitCharsOn_append_not_mem (c : Char) (l r : List Char) (h : ∀ x ∈ l, x ≠ c) :
    splitCharsOn c (l ++ r) = (splitCharsOn c r).modifyHead (fun p => l ++ p) := by
  induction l with
  | nil =>
    show splitCharsOn c r = _
    cases splitCharsOn c r with
    | nil => rfl
    | cons p ps => simp [List.modifyHead]
  | cons x xs ih =>
    have hx : x ≠ c := h x (List.mem_cons_self x xs)
    have hxs : ∀ y ∈ xs, y ≠ c := fun y hy => h y (List.mem_cons_of_mem x hy)
    show splitCharsOn c (x :: (xs ++ r)) = _
    rw [splitCharsOn_cons_ne c x (xs ++ r) hx, ih hxs]
    cases hs : splitCharsOn c r with
    | nil => exact absurd hs (splitCharsOn_ne_nil c r)
    | cons p ps => simp [List.modifyHead]

theorem bigLine_no_newline : ∀ x ∈ bigLine.data, x ≠ '\n' := by
  intro x hx
  rw [show bigLine.data = List.replicate 2500 'a' from rfl] at hx
  rw [(List.mem_replicate.mp hx).2]
  decide

theorem splitLines_contentLoss : splitLines contentLoss = linesLoss := by
  show (splitCharsOn '\n' contentLoss.data).map String.mk = linesLoss
  have hdata : contentLoss.data = bigLine.data ++ ("\na\na\na\na\na\nzz").data :=
    String.data_append _ _
  rw [hdata, splitCharsOn_append_not_mem '\n' _ _ bigLine_no_newline,
    show splitCharsOn '\n' ("\na\na\na\na\na\nzz").data =
      [[], ['a'], ['a'], ['a'], ['a'], ['a'], ['z', 'z']] from by decide]
  show ((bigLine.data ++ []) :: [['a'], ['a'], ['a'], ['a'], ['a'], ['z', 'z']]).map
    String.mk = linesLoss
  rw [List.append_nil]
  rfl

theorem notMem_joinLines (ch : Char) (c : List String) (hnl : ch ≠ '\n')
    (h : ∀ l ∈ c, ch ∉ l.data) : ch ∉ (joinLines c).data := by
  induction c with
  | nil => simp [joinLines]
  | cons l ls ih =>
    cases ls with
    | nil => exact h l (List.mem_cons_self l [])
    | cons l2 ls2 =>
      show ch ∉ (l ++ "\n" ++ joinLines (l2 :: ls2)).data
      rw [String.data_append, String.data_append]
      intro hmem
      rcases List.mem_append.mp hmem with hmem | hmem
      · rcases List.mem_append.mp hmem with hmem | hmem
        · exact h l (List.mem_cons_self l _) hmem
        · rw [show ("\n" : String).data = ['\n'] from rfl] at hmem
          rw [List.mem_singleton.mp hmem] at hnl
          exact hnl rfl
      · exact ih (fun l' hl' => h l' (List.mem_cons_of_mem l hl')) hmem

theorem z_notin_bigLine : 'z' ∉ bigLine.data := by
  intro hx
  rw [show bigLine.data = List.replicate 2500 'a' from rfl] at hx
  exact absurd (List.mem_replicate.mp hx).2 (by decide)

theorem contentLoss_length : contentLoss.length = 2513 := by
  show (bigLine ++ "\na\na\na\na\na\nzz").data.length = 2513
  rw [String.data_append _ _, List.length_append,
    show bigLine.data.length = 2500 from bigLine_length,
    show ("\na\na\na\na\na\nzz" : String).data.length = 13 from by decide]

theorem z_notin_chunk (k : Nat) :
    'z' ∉ (joinLines (bigLine :: List.replicate k "a")).data := by
  refine notMem_joinLines 'z' _ (by decide) ?_
  intro l hl
  rcases List.mem_cons.mp hl with rfl | hl
  · exact z_notin_bigLine
  · rw [List.eq_of_mem_replicate hl]
    decide

open CodeChunker in
/-- **C2 (counterexample).** On the 2,513-character input `contentLoss`
(one 2,500-character line, five `a` lines, a final `zz` line), the generic
chunker emits a chunk whose content exceeds `max_chunk_size` (the claimed
size bound is false), and the character `z`, present in the input, appears
in no emitted chunk — the final `zz` line is dropped, so no overlap-removal
concatenation can reconstruct the input. -/
theorem claim_C2_counterexample :
    max_chunk_size < contentLoss.length ∧
    (∃ ch ∈ chunk_generic "f.txt" contentLoss "text",
      max_chunk_size < ch.content.length) ∧
    'z' ∈ contentLoss.data ∧
    ∀ ch ∈ chunk_generic "f.txt" contentLoss "text", 'z' ∉ ch.content.data := by
  have hlen : max_chunk_size < contentLoss.length := by
    rw [contentLoss_length]
    decide
  have hchunks : chunk_generic "f.txt" contentLoss "text" =
      (chunkGenericLines (splitLines contentLoss)).map (mkSegmentChunk "f.txt" "text") := by
    unfold chunk_generic
    rw [if_neg (Nat.not_le.mpr hlen)]
  rw [hchunks, splitLines_contentLoss, chunkGenericLines_linesLoss]
  refine ⟨hlen, ?_, ?_, ?_⟩
  · refine ⟨mkSegmentChunk "f.txt" "text" [bigLine], List.mem_map_of_mem _ (by simp), ?_⟩
    show max_chunk_size < (joinLines [bigLine]).length
    rw [show joinLines [bigLine] = bigLine from rfl, bigLine_length]
    decide
  · rw [show contentLoss.data = bigLine.data ++ ("\na\na\na\na\na\nzz").data from
      String.data_append _ _]
    exact List.mem_append_right _ (by decide)
  · intro ch hch
    rcases List.mem_map.mp hch with ⟨c, hc, rfl⟩
    show 'z' ∉ (joinLines c).data
    simp only [List.mem_cons, List.mem_singleton, List.not_mem_nil, or_false] at hc
    rcases hc with rfl | rfl | rfl | rfl | rfl | rfl
    · exact z_notin_chunk 0
    · exact z_notin_chunk 1
    · exact z_notin_chunk 2
    · exact z_notin_chunk 3
    · exact z_notin_chunk 4
    · exact z_notin_chunk 5
